import Mathlib

/-!
goblueprint: the Loader and its link resolver, the registry and the store

A shallow embedding of `blueprint/loader.go` (Add, Type, Link, ErrorAt, Finish, resolve) and of
`blueprint/convert.go` (convert), with theorems about link resolution, the depth bound, error
accumulation and the converter fallback; of `loadLinks` of `blueprint/loader_json.go`; of
`Registry.Register` of `blueprint/registry.go`; and of the tag-only store of `registry.go`
(Create, readInstance, readFields and the field readers).

Conventions of the embedding:

* `path.P` is a Go `[]string`; it is a `List String` here, slicing `target[:i]` is `List.take`,
  `target[i:]` is `List.drop` and `append(x, y...)` is `++` (values, not backing arrays).
* a Go `map[string]path.P` is an association list with at most one entry per key; the nil map
  and the empty map are both `[]` (lookup, range and assignment do not tell them apart).
* the Go `Errors` slice is a list; the nil slice is `[]` (the loader only ever appends one
  record at a time, so an empty non-nil slice does not arise).
* `error` values are kept structured (`Error`), with `Error.Error` giving the Go message.
* the path library `gopath/path` is not part of the repository: its operations on values
  (`Set`, `Get`, `Type`) are parameters of the loader, gathered in `Env`, and `String`/`New`
  are modelled from the specification.
* a `reflect.Type` is the data the code asks of it (`RType`); JSON data is a parsed value
  (`JSON`), a `json.RawMessage` being the value it holds; `reflect.Value.Set` is taken to
  succeed (exported fields, instances assignable to the element type of their slice).
* a call that ends the process (a panic, a fatal log entry) is a result of its own kind.
* `readInstance` and `readFields` call each other; they take the number of nested calls they
  may make, and `none` is a call that did not return within that number.
-/

set_option linter.dupNamespace false

namespace Blueprint

/-! ## Paths -/

/-- The Go type `path.P`: a sequence of segments. -/
abbrev P := List String

/-- Modelled from the spec: `path.P.String` of the path library, which is not in the
repository. "Render" joins the segments with the dot delimiter. -/
def pathString (p : P) : String := ".".intercalate p

/-- Splits a character sequence at every dot (`strings.Split(s, ".")` on characters). -/
def splitDot : List Char → List (List Char)
  | [] => [[]]
  | c :: cs =>
    if c = '.' then [] :: splitDot cs
    else
      match splitDot cs with
      | [] => [[c]]
      | seg :: rest => (c :: seg) :: rest

/-- Modelled from the spec: `path.New` of the path library, which is not in the repository.
"Parse" splits a dot-delimited textual form into segments. -/
def pathNew (s : String) : P := (splitDot s.data).map String.mk

/-! ## Errors -/

/-- Go `error` values met by the loader, kept structured. -/
inductive Error where
  /-- The path library's failure for a segment that is missing on the current shape. -/
  | ErrInvalidPath : Error
  /-- The sentinel `path.ErrInvalidType`. -/
  | ErrInvalidType : Error
  /-- Any other error value, given by its message (a converter's failure for instance). -/
  | other (msg : String) : Error
  /-- The value of `fmt.Errorf("unknown type '%s'", name)`. -/
  | unknownType (name : String) : Error
  /-- The value of `fmt.Errorf("unable to link '%s' to nil value '%s'", src, dst)`. -/
  | nilLink (src : String) (dst : P) : Error
  /-- The value of `fmt.Errorf("reached max links depth for '%s'", target)`. -/
  | maxDepth (target : P) : Error
  /-- The value of `fmt.Errorf("%s at '%s'", err, src)`, built by `ErrorAt`. -/
  | located (cause : Error) (src : P) : Error
  deriving DecidableEq, Repr

/-- The `Error()` message of an error value. The texts of the path library's two sentinels are
not in the repository; the specification's names for the two kinds stand for them. -/
def Error.Error : Error → String
  | .ErrInvalidPath => "InvalidPath"
  | .ErrInvalidType => "InvalidType"
  | .other msg => msg
  | .unknownType name => "unknown type '" ++ name ++ "'"
  | .nilLink src dst => "unable to link '" ++ src ++ "' to nil value '" ++ pathString dst ++ "'"
  | .maxDepth target => "reached max links depth for '" ++ pathString target ++ "'"
  | .located cause src => cause.Error ++ " at '" ++ pathString src ++ "'"

/-! ## Go maps as association lists -/

/-- The Go map assignment `m[k] = v`: overwrites the entry of `k`, or adds one. -/
def mapSet {β : Type} : List (String × β) → String → β → List (String × β)
  | [], k, v => [(k, v)]
  | (k', v') :: m, k, v => if k' = k then (k, v) :: m else (k', v') :: mapSet m k v

/-! ## The loader -/

/-- MaxLinksDepth protects against cyclic links by limiting how far a link is resolved. -/
def MaxLinksDepth : Nat := 128

/-- What the loader needs from outside `loader.go`: the path library's operations on values of
type `V` (Go `interface{}`), `reflect.TypeOf`, the converters table of `convert.go` and the
registry's `New`. A failing `set` leaves the root as it was. -/
structure Env (V T : Type) where
  /-- The root after `src.Set(root, value)`, or the error it returns. -/
  set : P → V → V → Except Error V
  /-- The result of `dst.Get(root)`. -/
  get : P → V → Except Error V
  /-- The result of `src.Type(root)`: the declared type at the path. -/
  typ : P → V → Except Error T
  /-- The runtime type `reflect.TypeOf(value)`. -/
  typeOf : V → T
  /-- The test `value == nil`. -/
  isNil : V → Bool
  /-- The table `converters`, by target type. -/
  converters : T → Option (V → Except Error V)
  /-- The registry's `New(name)`. -/
  new : String → Option V

/-- The Go struct `Loader`. -/
structure Loader (V : Type) where
  /-- Values is the value to be constructed. -/
  Values : V
  /-- The pending links, keyed by the rendering of their source. -/
  links : List (String × P)
  /-- The errors accumulated so far. -/
  errors : List Error

/-- A loader on which nothing has been called yet: `&Loader{Values: root}`. -/
def Loader.fresh {V : Type} (root : V) : Loader V := { Values := root, links := [], errors := [] }

section Ops

variable {V T : Type} [DecidableEq T]

/-- ErrorAt reports an error while loading the given path; a nil error is not recorded. -/
def Loader.ErrorAt (loader : Loader V) (err : Option Error) (src : P) : Loader V :=
  match err with
  | some e => { loader with errors := loader.errors ++ [Error.located e src] }
  | none => loader

/-- The function `convert` of `convert.go`. -/
def convert (env : Env V T) (typ : T) (value : V) : Except Error V :=
  if env.typeOf value ≠ typ then
    match env.converters typ with
    | some conv => conv value
    | none => .ok value
  else .ok value

/-- Add sets the object at the given path to value. -/
def Loader.Add (env : Env V T) (loader : Loader V) (src : P) (value : V) : Loader V :=
  match env.set src loader.Values value with
  | .ok root => { loader with Values := root }
  | .error err =>
    if err = Error.ErrInvalidType then
      match env.typ src loader.Values with
      | .error err => loader.ErrorAt (some err) src
      | .ok typ =>
        match convert env typ value with
        | .error err => loader.ErrorAt (some err) src
        | .ok value =>
          match env.set src loader.Values value with
          | .error err => loader.ErrorAt (some err) src
          | .ok root => ({ loader with Values := root } : Loader V).ErrorAt none src
    else loader.ErrorAt (some err) src

/-- Type asserts the type of an object at the given path (`Loader.Type` in the source). -/
def Loader.TypeAt (env : Env V T) (loader : Loader V) (src : P) (name : String) : Loader V :=
  match env.new name with
  | none => loader.ErrorAt (some (Error.unknownType name)) src
  | some value =>
    match env.set src loader.Values value with
    | .error err => loader.ErrorAt (some err) src
    | .ok root => { loader with Values := root }

/-- Link records that the object at src should be equal to the value at target. -/
def Loader.Link (loader : Loader V) (src target : P) : Loader V :=
  { loader with links := mapSet loader.links (pathString src) target }

end Ops

/-! ## Link resolution -/

/-- The loop `for i := 1; i <= len(target); i++` of `resolve`, entered at index `i` with `n`
iterations left: the first index whose prefix renders to a key of the map, with its target. -/
def scanFrom (links : List (String × P)) (target : P) : Nat → Nat → Option (Nat × P)
  | 0, _ => none
  | n + 1, i =>
    match links.lookup (pathString (target.take i)) with
    | some redirect => some (i, redirect)
    | none => scanFrom links target n (i + 1)

/-- The whole loop of `resolve` over the prefixes of target, from length 1 to `len(target)`. -/
def findRedirect (links : List (String × P)) (target : P) : Option (Nat × P) :=
  scanFrom links target target.length 1

/-- The body of `resolve`, by recursion on `fuel`, the number of calls that are still allowed:
`MaxLinksDepth + 1 - depth`. Having none left is the test `depth > MaxLinksDepth`.
`redirect ++ target.drop i` is the value of `append(redirect, target[i:]...)`; that Go's
`append` writes it into the spare capacity of the recorded slice, when there is some, and so
into other recorded targets that share its array, is not represented. -/
def resolveAux (links : List (String × P)) : Nat → P → Nat → Except Error P
  | 0, target, _ => .error (Error.maxDepth target)
  | fuel + 1, target, depth =>
    if depth > MaxLinksDepth then .error (Error.maxDepth target)
    else
      match findRedirect links target with
      | some (i, redirect) => resolveAux links fuel (redirect ++ target.drop i) (depth + 1)
      | none => .ok target

/-- The method `Loader.resolve`, on the links map of the loader. -/
def resolve (links : List (String × P)) (target : P) (depth : Nat) : Except Error P :=
  resolveAux links (MaxLinksDepth + 1 - depth) target depth

section Finish

variable {V T : Type}

/-- The body of the loop of `Finish`, for the entry `src, target` of the links map. -/
def Loader.finishLink (env : Env V T) (loader : Loader V) (src : String) (target : P) :
    Loader V :=
  match resolve loader.links target 0 with
  | .error err => loader.ErrorAt (some err) (pathNew src)
  | .ok dst =>
    match env.get dst loader.Values with
    | .error err => loader.ErrorAt (some err) (pathNew src)
    | .ok value =>
      if env.isNil value then
        loader.ErrorAt (some (Error.nilLink src dst)) (pathNew src)
      else
        match env.set (pathNew src) loader.Values value with
        | .error err => loader.ErrorAt (some err) (pathNew src)
        | .ok root => { loader with Values := root }

/-- The loop of `Finish`: `order` is the sequence in which `range loader.links` hands out the
entries of the map, which Go leaves unspecified (a permutation of `loader.links`). -/
def Loader.finishLinks (env : Env V T) (loader : Loader V) (order : List (String × P)) :
    Loader V :=
  order.foldl (fun acc entry => acc.finishLink env entry.1 entry.2) loader

/-- Finish completes and returns the object: `(value, error)`, the error being the whole
accumulated sequence. -/
def Loader.Finish (env : Env V T) (loader : Loader V) (order : List (String × P)) :
    Option V × Option (List Error) :=
  match (loader.finishLinks env order).errors with
  | [] => (some (loader.finishLinks env order).Values, none)
  | e :: es => (none, some (e :: es))

end Finish

/-! ## A value tree for the path operations -/

/-- Modelled from the spec: the types of the value tree, as far as assignment tells them
apart (`reflect.Type` and the path library are not in the repository): the interface type of
a dynamic slot, which holds anything, and the concrete types of leaves, maps and records. -/
inductive Ty where
  /-- The nil `reflect.Type`, which is `reflect.TypeOf(nil)`. -/
  | invalid : Ty
  /-- The interface type of a dynamic slot. -/
  | iface : Ty
  /-- The type of text. -/
  | string : Ty
  /-- The type of integers. -/
  | int : Ty
  /-- The type of durations. -/
  | duration : Ty
  /-- The type of name-keyed maps of dynamic slots. -/
  | mapOf : Ty
  /-- The type of references to the record type of that name. -/
  | ptr (name : String) : Ty
  deriving DecidableEq, Repr

/-- Modelled from the spec: the value tree of section 3 (the Go values the path library
walks are not in the repository): literal leaves, name-keyed maps of dynamic slots, and typed
records whose fields have a declared type. `nil` is the empty value. A record is held by
value: that two slots may hold one and the same Go pointer is not represented. -/
inductive Value where
  /-- The nil interface value. -/
  | nil : Value
  /-- A text leaf. -/
  | str (s : String) : Value
  /-- An integer leaf. -/
  | int (n : Int) : Value
  /-- A duration leaf, in nanoseconds. -/
  | duration (ns : Int) : Value
  /-- A name-keyed map of dynamic slots. -/
  | map (entries : List (String × Value)) : Value
  /-- A reference to a typed record: each field has a declared type and a current value. -/
  | record (name : String) (fields : List (String × Ty × Value)) : Value

/-- Modelled from the spec: the runtime type of a value (`reflect.TypeOf`). -/
def Value.typeOf : Value → Ty
  | .nil => .invalid
  | .str _ => .string
  | .int _ => .int
  | .duration _ => .duration
  | .map _ => .mapOf
  | .record name _ => .ptr name

/-- Modelled from the spec: the test `value == nil`. -/
def Value.isNil : Value → Bool
  | .nil => true
  | _ => false

/-- Modelled from the spec: one step of the traversal of section 4.1, the value found under a
segment, if the segment exists on the current shape. -/
def Value.child (root : Value) (seg : String) : Option Value :=
  match root with
  | .map entries => entries.lookup seg
  | .record _ fields => (fields.lookup seg).map (fun f => f.2)
  | _ => none

/-- Modelled from the spec: the declared type under a segment: the interface type for a slot
of a map (present or not), the field's declared type for a record. -/
def Value.declared (root : Value) (seg : String) : Option Ty :=
  match root with
  | .map _ => some .iface
  | .record _ fields => (fields.lookup seg).map (fun f => f.1)
  | _ => none

/-- Modelled from the spec: the assignment of the last segment of `Set` (section 4.1): a map
takes any value, creating the slot if needed; a record field takes a value of its declared
type, else the failure is InvalidType; a segment that does not exist is InvalidPath. -/
def Value.assign (root : Value) (seg : String) (value : Value) : Except Error Value :=
  match root with
  | .map entries => .ok (.map (mapSet entries seg value))
  | .record name fields =>
    match fields.lookup seg with
    | none => .error Error.ErrInvalidPath
    | some (ty, _) =>
      if ty = Ty.iface ∨ value.typeOf = ty then .ok (.record name (mapSet fields seg (ty, value)))
      else .error Error.ErrInvalidType
  | _ => .error Error.ErrInvalidPath

/-- Modelled from the spec: `path.P.Get` (section 4.1), the traversal without mutation, which
fails with InvalidPath if a segment is missing. -/
def treeGet : P → Value → Except Error Value
  | [], root => .ok root
  | seg :: rest, root =>
    match root.child seg with
    | none => .error Error.ErrInvalidPath
    | some c => treeGet rest c

/-- Modelled from the spec: `path.P.Set` (section 4.1): traverses the root by successive
segment lookups and assigns the final value; the result is the root after the assignment. -/
def treeSet : P → Value → Value → Except Error Value
  | [], _, _ => .error Error.ErrInvalidPath
  | [seg], root, value => root.assign seg value
  | seg :: rest, root, value =>
    match root.child seg with
    | none => .error Error.ErrInvalidPath
    | some c =>
      match treeSet rest c value with
      | .error err => .error err
      | .ok c' => root.assign seg c'

/-- Modelled from the spec: `path.P.Type` (section 4.1, DeclaredType): the declared type at
the path, available before a value is present. -/
def treeType : P → Value → Except Error Ty
  | [], root => .ok root.typeOf
  | [seg], root =>
    match root.declared seg with
    | none => .error Error.ErrInvalidPath
    | some ty => .ok ty
  | seg :: rest, root =>
    match root.child seg with
    | none => .error Error.ErrInvalidPath
    | some c => treeType rest c

/-- The loader's environment over the value tree, for a registry of zero instances by name
and a table of converters. -/
def treeEnv (registry : List (String × Value))
    (converters : Ty → Option (Value → Except Error Value)) : Env Value Ty where
  set := treeSet
  get := treeGet
  typ := treeType
  typeOf := Value.typeOf
  isNil := Value.isNil
  converters := converters
  new := fun name => registry.lookup name

/-- The environment with an empty registry and no converter. -/
def bareEnv : Env Value Ty := treeEnv [] (fun _ => none)

/-! ## Chains of links -/

/-- The loader after `Link(p 0, p 1)`, `Link(p 1, p 2)`, ..., `Link(p (n-1), p n)`, each path
having the single segment named. -/
def linkChain {V : Type} (loader : Loader V) (p : Nat → String) (n : Nat) : Loader V :=
  (List.range n).foldl (fun acc i => acc.Link [p i] [p (i + 1)]) loader

/-- The links map of a chain of `n` links. -/
def chainLinks (p : Nat → String) (n : Nat) : List (String × P) :=
  (List.range n).map (fun i => (p i, [p (i + 1)]))

/-- The names `p`, `pp`, `ppp`, ...: one distinct dot-free segment per index. -/
def chainName (i : Nat) : String := String.mk (List.replicate (i + 1) 'p')

/-! ## Sequences of calls -/

/-- One call made on a loader while it builds: `Add`, `Type` or `Link`. -/
inductive Call (V : Type) where
  /-- The call `Add(src, value)`. -/
  | add (src : P) (value : V) : Call V
  /-- The call `Type(src, name)`. -/
  | typ (src : P) (name : String) : Call V
  /-- The call `Link(src, target)`. -/
  | link (src target : P) : Call V

/-- The loader after one call. -/
def Loader.call {V T : Type} [DecidableEq T] (env : Env V T) (loader : Loader V) :
    Call V → Loader V
  | .add src value => loader.Add env src value
  | .typ src name => loader.TypeAt env src name
  | .link src target => loader.Link src target

/-- The loader after a sequence of calls, made one after the other. -/
def Loader.run {V T : Type} [DecidableEq T] (env : Env V T) (loader : Loader V)
    (calls : List (Call V)) : Loader V :=
  calls.foldl (fun acc c => acc.call env c) loader

/-! ## The JSON loader: link declarations -/

/-- A JSON value as `encoding/json` decodes it into an `interface{}`: nil, a bool, a float64
(kept as the text of the number), a string, a `[]interface{}` or a `map[string]interface{}`. -/
inductive JSON where
  /-- The value `null`, decoded as nil. -/
  | null : JSON
  /-- A boolean. -/
  | bool (b : Bool) : JSON
  /-- A number, by its text. -/
  | number (text : String) : JSON
  /-- A string. -/
  | string (s : String) : JSON
  /-- An array. -/
  | array (items : List JSON) : JSON
  /-- An object, by its members. -/
  | object (members : List (String × JSON)) : JSON

/-- What the verb `%T` prints for a decoded JSON value. -/
def JSON.goType : JSON → String
  | .null => "<nil>"
  | .bool _ => "bool"
  | .number _ => "float64"
  | .string _ => "string"
  | .array _ => "[]interface {}"
  | .object _ => "map[string]interface {}"

mutual

/-- The method `loaderJSON.loadLinks`; `strconv.Itoa` is the decimal numeral. -/
def loadLinks {V : Type} (loader : Loader V) (current : P) : JSON → Loader V
  | .string s => loader.Link current (pathNew s)
  | .array items => loadLinksRange loader current 0 items
  | obj =>
    loader.ErrorAt
      (some (Error.other ("unknown object type '" ++ obj.goType ++ "' for links"))) current

/-- The loop `for i, value := range obj` of `loadLinks`, entered at index `i`. -/
def loadLinksRange {V : Type} (loader : Loader V) (current : P) (i : Nat) :
    List JSON → Loader V
  | [] => loader
  | value :: rest =>
    loadLinksRange (loadLinks loader (current ++ [toString i]) value) current (i + 1) rest

end

/-! ## Types, as `reflect` presents them -/

/-- The kinds of `reflect.Kind` that the registry and the store tell apart. -/
inductive Kind where
  /-- The kind of booleans. -/
  | bool : Kind
  /-- The kind of `int`. -/
  | int : Kind
  /-- The kind of `float64`. -/
  | float64 : Kind
  /-- The kind of strings. -/
  | string : Kind
  /-- The kind of structs. -/
  | struct : Kind
  /-- The kind of slices. -/
  | slice : Kind
  /-- The kind of maps. -/
  | map : Kind
  /-- The kind of pointers. -/
  | ptr : Kind
  /-- The kind of interfaces. -/
  | interface : Kind
  deriving DecidableEq, Repr

/-- The text of `reflect.Kind.String`. -/
def Kind.name : Kind → String
  | .bool => "bool"
  | .int => "int"
  | .float64 => "float64"
  | .string => "string"
  | .struct => "struct"
  | .slice => "slice"
  | .map => "map"
  | .ptr => "ptr"
  | .interface => "interface"

/-- A `reflect.Type`, by what the code asks of it: `PkgPath()`, `Name()`, `Kind()`, `Elem()`
(absent when `Elem` panics) and, for a struct, its fields in order, each with its `Name`, its
`Anonymous` flag and its `Type`. -/
inductive RType where
  /-- A type with its package path, name, kind, element type and fields. -/
  | mk (pkgPath name : String) (kind : Kind) (elem : Option RType)
      (fields : List (String × Bool × RType)) : RType

/-- The method `Type.PkgPath`. -/
def RType.PkgPath : RType → String
  | .mk pkgPath _ _ _ _ => pkgPath

/-- The method `Type.Name`. -/
def RType.Name : RType → String
  | .mk _ name _ _ _ => name

/-- The method `Type.Kind`. -/
def RType.Kind : RType → Kind
  | .mk _ _ kind _ _ => kind

/-- The method `Type.Elem`, absent when it panics. -/
def RType.Elem : RType → Option RType
  | .mk _ _ _ elem _ => elem

/-- The fields of a struct type: `Type.Field(i)` for `i` below `Type.NumField()`. -/
def RType.Fields : RType → List (String × Bool × RType)
  | .mk _ _ _ _ fields => fields

/-- A type without element type and fields. -/
def RType.plain (pkgPath name : String) (kind : Blueprint.Kind) : RType :=
  .mk pkgPath name kind none []

/-! ## The type registry of the blueprint package -/

/-- How a call ends the process: a panic or a fatal log entry, with its message. -/
inductive Abort where
  /-- A panic: `klog.KPanicf`, or a panic of `reflect`. -/
  | panic (msg : String) : Abort
  /-- A fatal log entry: `klog.KFatalf`. -/
  | fatal (msg : String) : Abort
  deriving DecidableEq, Repr

/-- The Go struct `Registry`: the map `types` (the mutex is left out). -/
structure Registry where
  /-- The types by name, qualified or short. -/
  types : List (String × RType)

/-- The loop `for typ.Kind() == reflect.Ptr || typ.Kind() == reflect.Interface` of `Register`,
which replaces the type by its element type. -/
def stripRefs : RType → Except Abort RType
  | .mk pkgPath name kind elem fields =>
    if kind = Kind.ptr ∨ kind = Kind.interface then
      match elem with
      | some e => stripRefs e
      | none => .error (Abort.panic "reflect: Elem of invalid type")
    else .ok (.mk pkgPath name kind elem fields)

/-- The name under which `Register` records a type: the package path, a slash and the name,
or the name alone when the package path is empty. -/
def qualifiedName (typ : RType) : String :=
  if typ.PkgPath ≠ "" then typ.PkgPath ++ "/" ++ typ.Name else typ.Name

/-- The method `Registry.Register`, for a value of the given dynamic type (none for the nil
interface): the registry after the call, unless the call ends the process. -/
def Registry.Register (reg : Registry) (value : Option RType) : Except Abort Registry :=
  match value with
  | none => .error (Abort.panic "attempted to register nil")
  | some valueType =>
    match stripRefs valueType with
    | .error abort => .error abort
    | .ok typ =>
      if (reg.types.lookup (qualifiedName typ)).isSome then
        .error (Abort.fatal ("duplicate registration attempt for '" ++ qualifiedName typ ++ "'"))
      else if ((mapSet reg.types (qualifiedName typ) typ).lookup typ.Name).isSome then
        .ok { types := mapSet reg.types (qualifiedName typ) typ }
      else
        .ok { types := mapSet (mapSet reg.types (qualifiedName typ) typ) typ.Name typ }

/-- The method `Registry.Get`. -/
def Registry.Get (reg : Registry) (name : String) : Option RType := reg.types.lookup name

/-! ## The tag-only store package -/

/-- How a call of the store fails: with an error value, given by its message, or with a panic
of `reflect`. -/
inductive StoreErr where
  /-- An error value: `fmt.Errorf` of the store, or an error of `encoding/json`. -/
  | err (msg : String) : StoreErr
  /-- A panic of `reflect`. -/
  | panic (msg : String) : StoreErr
  deriving DecidableEq, Repr

/-- The value `fmt.Errorf` builds around an error: the message is extended; a panic is not an
error value and passes unchanged. -/
def StoreErr.wrap (e : StoreErr) (suffix : String) : StoreErr :=
  match e with
  | .err msg => .err (msg ++ suffix)
  | .panic msg => .panic msg

/-- The values the store builds. -/
inductive SValue where
  /-- The zero value of a field that no reader has set. -/
  | zero : SValue
  /-- A string. -/
  | str (s : String) : SValue
  /-- A struct of the named type, with the values of its fields in order. -/
  | struct (typeName : String) (fields : List (String × SValue)) : SValue
  /-- A slice of instances. -/
  | slice (items : List SValue) : SValue
  /-- The pointer that `reflect.New` returns, to a struct that was then populated. -/
  | ptr (target : SValue) : SValue

/-- What `encoding/json` calls a JSON value in its type errors. -/
def JSON.jsonKind : JSON → String
  | .null => "null"
  | .bool _ => "bool"
  | .number _ => "number"
  | .string _ => "string"
  | .array _ => "array"
  | .object _ => "object"

/-- The call `json.Unmarshal(data, &items)` for `items` a `map[string]json.RawMessage`: the
members of an object, assigned to the map one after the other, so that of several members
with one name the last is kept; `null` leaves the map as it is, empty. -/
def unmarshalObject : JSON → Except StoreErr (List (String × JSON))
  | .object members => .ok (members.foldl (fun items member => mapSet items member.1 member.2) [])
  | .null => .ok []
  | data => .error (StoreErr.err ("json: cannot unmarshal " ++ data.jsonKind ++
      " into Go value of type map[string]json.RawMessage"))

/-- The call `json.Unmarshal(data, &s)` for `s` a string; `null` leaves it as it is, empty. -/
def unmarshalString : JSON → Except StoreErr String
  | .string s => .ok s
  | .null => .ok ""
  | data => .error (StoreErr.err ("json: cannot unmarshal " ++ data.jsonKind ++
      " into Go value of type string"))

/-- The call `json.Unmarshal(data, &items)` for `items` a `[]json.RawMessage`; `null` leaves
it as it is, nil. -/
def unmarshalArray : JSON → Except StoreErr (List JSON)
  | .array items => .ok items
  | .null => .ok []
  | data => .error (StoreErr.err ("json: cannot unmarshal " ++ data.jsonKind ++
      " into Go value of type []json.RawMessage"))

/-- The method `readStringField`: the value of the field after the call. -/
def readStringField (name : String) (data : List (String × JSON)) : Except StoreErr SValue :=
  match data.lookup name with
  | some item =>
    match unmarshalString item with
    | .error e => .error e
    | .ok s => .ok (SValue.str s)
  | none => .ok SValue.zero

/-- The loop `for i := 0; i != len(items); i++` of `readSliceField`, `readInstance` being the
function given; `none` is a call that did not return within its fuel. -/
def readInstances (readInstance : JSON → Option (Except StoreErr SValue)) :
    List JSON → Option (Except StoreErr (List SValue))
  | [] => some (.ok [])
  | item :: rest =>
    match readInstance item with
    | none => none
    | some (.error e) => some (.error e)
    | some (.ok value) =>
      match readInstances readInstance rest with
      | none => none
      | some (.error e) => some (.error e)
      | some (.ok values) => some (.ok (value :: values))

/-- The method `readSliceField`: the value of the field after the call. -/
def readSliceField (readInstance : JSON → Option (Except StoreErr SValue))
    (fieldType : RType) (name : String) (data : List (String × JSON)) :
    Option (Except StoreErr SValue) :=
  match data.lookup name with
  | some item =>
    match fieldType.Elem with
    | none => some (.error (StoreErr.panic "reflect: Elem of invalid type"))
    | some t =>
      match t.Kind with
      | .interface =>
        match unmarshalArray item with
        | .error e => some (.error e)
        | .ok items =>
          match readInstances readInstance items with
          | none => none
          | some (.error e) => some (.error e)
          | some (.ok values) => some (.ok (SValue.slice values))
      | k => some (.error (StoreErr.err ("unhandled kind of slice '" ++ k.name ++ "'")))
  | none => some (.ok SValue.zero)

/-- The method `readStructField`: the value of the field after the call. -/
def readStructField
    (readFields : RType → List (String × JSON) →
      Option (Except StoreErr (List (String × SValue))))
    (fieldType : RType) (name : String) (data : List (String × JSON)) :
    Option (Except StoreErr SValue) :=
  match data.lookup name with
  | some item =>
    match unmarshalObject item with
    | .error e => some (.error e)
    | .ok items =>
      match readFields fieldType items with
      | none => none
      | some (.error e) =>
        some (.error (e.wrap (" in field '" ++ name ++ "' of struct '" ++ fieldType.Name ++ "'")))
      | some (.ok fields) => some (.ok (SValue.struct fieldType.Name fields))
  | none => some (.ok SValue.zero)

/-- The loop `for i := 0; i != t.NumField(); i++` of `readFields` over the fields that are
left, with the current value of the named result `err` and the fields populated so far. A
reader that returns assigns its result to `err`, nil included; an unhandled kind assigns an
error to `err` and the loop goes on. -/
def readFieldsLoop
    (readFields : RType → List (String × JSON) →
      Option (Except StoreErr (List (String × SValue))))
    (readInstance : JSON → Option (Except StoreErr SValue))
    (structName : String) (items : List (String × JSON)) :
    List (String × Bool × RType) → Option StoreErr → List (String × SValue) →
      Option (Except StoreErr (List (String × SValue)))
  | [], none, done => some (.ok done)
  | [], some e, _ => some (.error e)
  | (name, anonymous, fieldType) :: rest, _, done =>
    match fieldType.Kind with
    | .struct =>
      if anonymous then
        match readFields fieldType items with
        | none => none
        | some (.error e) =>
          some (.error (e.wrap
            (" in anonymous field '" ++ name ++ "' of struct '" ++ structName ++ "'")))
        | some (.ok fields) =>
          readFieldsLoop readFields readInstance structName items rest none
            (done ++ [(name, SValue.struct fieldType.Name fields)])
      else
        match readStructField readFields fieldType name items with
        | none => none
        | some (.error e) => some (.error e)
        | some (.ok value) =>
          readFieldsLoop readFields readInstance structName items rest none
            (done ++ [(name, value)])
    | .slice =>
      match readSliceField readInstance fieldType name items with
      | none => none
      | some (.error e) =>
        some (.error (e.wrap
          (" in slice field '" ++ name ++ "' of struct '" ++ structName ++ "'")))
      | some (.ok value) =>
        readFieldsLoop readFields readInstance structName items rest none
          (done ++ [(name, value)])
    | .string =>
      match readStringField name items with
      | .error e =>
        some (.error (e.wrap (" in field '" ++ name ++ "' of struct '" ++ structName ++ "'")))
      | .ok value =>
        readFieldsLoop readFields readInstance structName items rest none
          (done ++ [(name, value)])
    | k =>
      readFieldsLoop readFields readInstance structName items rest
        (some (StoreErr.err ("unhandled kind of field '" ++ k.name ++ "'")))
        (done ++ [(name, SValue.zero)])

mutual

/-- The method `readInstance`, over a registry, with the number of nested calls it may make;
`none` is a call that did not return within that number. -/
def readInstance (registry : List (String × RType)) :
    Nat → JSON → Option (Except StoreErr SValue)
  | 0, _ => none
  | fuel + 1, data =>
    match unmarshalObject data with
    | .error e => some (.error e)
    | .ok items =>
      match items.lookup "Type" with
      | none => some (.error (StoreErr.err "missing 'type' field"))
      | some text =>
        match unmarshalString text with
        | .error e => some (.error e)
        | .ok kind =>
          match registry.lookup kind with
          | none =>
            some (.error (StoreErr.err ("type '" ++ kind ++ "' has not been registered")))
          | some t =>
            match readFields registry fuel t items with
            | none => none
            | some (.error e) => some (.error e)
            | some (.ok fields) => some (.ok (SValue.ptr (SValue.struct t.Name fields)))

/-- The method `readFields`, for a value of type `t` that is still zero: the fields of the
value after the call, or the error returned. -/
def readFields (registry : List (String × RType)) :
    Nat → RType → List (String × JSON) → Option (Except StoreErr (List (String × SValue)))
  | 0, _, _ => none
  | fuel + 1, t, items =>
    if t.Kind = Kind.struct then
      readFieldsLoop (readFields registry fuel) (readInstance registry fuel) t.Name items
        t.Fields none []
    else some (.error (StoreErr.panic "reflect: NumField of non-struct type"))

end

/-- The function `Create` of the store, on parsed JSON data. -/
def Create (registry : List (String × RType)) (fuel : Nat) (data : JSON) :
    Option (Except StoreErr SValue) :=
  readInstance registry fuel data

/-! ## Sequences of `Link` calls -/

/-- The loader after the calls `Link(src, target)` for the pairs of `calls`, in order. -/
def Loader.linkAll {V : Type} (loader : Loader V) (calls : List (P × P)) : Loader V :=
  calls.foldl (fun acc call => acc.Link call.1 call.2) loader

/-! ## Unfolding `resolve` -/

/-- The recursion equation of `resolve`: the body of the Go method. -/
theorem resolve_eq (links : List (String × P)) (target : P) (depth : Nat) :
    resolve links target depth =
      if depth > MaxLinksDepth then .error (Error.maxDepth target)
      else
        match findRedirect links target with
        | some (i, redirect) => resolve links (redirect ++ target.drop i) (depth + 1)
        | none => .ok target := by
  unfold resolve
  by_cases h : depth > MaxLinksDepth
  · have h0 : MaxLinksDepth + 1 - depth = 0 := by omega
    rw [h0]
    simp [resolveAux, h]
  · obtain ⟨f, hf⟩ : ∃ f, MaxLinksDepth + 1 - depth = f + 1 :=
      ⟨MaxLinksDepth - depth, by omega⟩
    have hf2 : MaxLinksDepth + 1 - (depth + 1) = f := by omega
    rw [hf, hf2]
    simp [resolveAux, h]

/-! ## The scan over the prefixes -/

/-- The scan finds nothing when no index of its range has a recorded rendering. -/
theorem scanFrom_eq_none (links : List (String × P)) (target : P) (n i : Nat)
    (h : ∀ j, i ≤ j → j < i + n → links.lookup (pathString (target.take j)) = none) :
    scanFrom links target n i = none := by
  induction n generalizing i with
  | zero => rfl
  | succ n ih =>
    have h0 := h i (Nat.le_refl i) (by omega)
    have hrest := ih (i + 1) (fun j h1 h2 => h j (by omega) (by omega))
    simp [scanFrom, h0, hrest]

/-- The scan stops at the first index of its range whose rendering is recorded. -/
theorem scanFrom_eq_some (links : List (String × P)) (target : P) (n i k : Nat) (R : P)
    (hik : i ≤ k) (hkn : k < i + n)
    (hR : links.lookup (pathString (target.take k)) = some R)
    (hmin : ∀ j, i ≤ j → j < k → links.lookup (pathString (target.take j)) = none) :
    scanFrom links target n i = some (k, R) := by
  induction n generalizing i with
  | zero => omega
  | succ n ih =>
    by_cases hk : i = k
    · subst hk
      simp [scanFrom, hR]
    · have h0 := hmin i (Nat.le_refl i) (by omega)
      have hrest := ih (i + 1) (by omega) (by omega) (fun j h1 h2 => hmin j (by omega) h2)
      simp [scanFrom, h0, hrest]

/-- What the scan returns is an index of its range whose rendering is recorded, and no
earlier index of the range is. -/
theorem scanFrom_some_spec (links : List (String × P)) (target : P) (n i k : Nat) (R : P)
    (h : scanFrom links target n i = some (k, R)) :
    i ≤ k ∧ k < i + n ∧ links.lookup (pathString (target.take k)) = some R ∧
      ∀ j, i ≤ j → j < k → links.lookup (pathString (target.take j)) = none := by
  induction n generalizing i with
  | zero => simp [scanFrom] at h
  | succ n ih =>
    unfold scanFrom at h
    cases hl : links.lookup (pathString (target.take i)) with
    | some r =>
      rw [hl] at h
      simp only [Option.some.injEq, Prod.mk.injEq] at h
      obtain ⟨h1, h2⟩ := h
      subst h1
      subst h2
      exact ⟨Nat.le_refl _, by omega, hl, fun j h1 h2 => by omega⟩
    | none =>
      rw [hl] at h
      obtain ⟨a, b, c, d⟩ := ih (i + 1) h
      refine ⟨by omega, by omega, c, fun j h1 h2 => ?_⟩
      by_cases hj : j = i
      · subst hj
        exact hl
      · exact d j (by omega) h2

/-! ## Resolution at the shortest matching prefix -/

/-- Below the depth bound, a target with a redirect at `k` is resolved through the redirect. -/
theorem resolve_of_findRedirect_some (links : List (String × P)) (T R : P) (d k : Nat)
    (hd : d ≤ MaxLinksDepth) (h : findRedirect links T = some (k, R)) :
    resolve links T d = resolve links (R ++ T.drop k) (d + 1) := by
  rw [resolve_eq links T d, if_neg (by omega), h]

/-- Below the depth bound, a target without redirect is returned as it is. -/
theorem resolve_of_findRedirect_none (links : List (String × P)) (T : P) (d : Nat)
    (hd : d ≤ MaxLinksDepth) (h : findRedirect links T = none) :
    resolve links T d = .ok T := by
  rw [resolve_eq links T d, if_neg (by omega), h]

/-- C1: for every links map, target `T` and depth `d ≤ 128`, when `k` is the smallest length
in `1..len(T)` such that `T[:k]` renders to a recorded link source, with target `R`, then
`resolve(T, d)` is `resolve(R ++ T[k:], d+1)`; nothing is asked of the longer prefixes. -/
theorem resolve_shortest_prefix (links : List (String × P)) (T R : P) (d k : Nat)
    (hd : d ≤ MaxLinksDepth) (hk1 : 1 ≤ k) (hk : k ≤ T.length)
    (hR : links.lookup (pathString (T.take k)) = some R)
    (hmin : ∀ j, 1 ≤ j → j < k → links.lookup (pathString (T.take j)) = none) :
    resolve links T d = resolve links (R ++ T.drop k) (d + 1) := by
  have hscan : findRedirect links T = some (k, R) :=
    scanFrom_eq_some links T T.length 1 k R hk1 (by omega) hR hmin
  exact resolve_of_findRedirect_some links T R d k hd hscan

/-- A witness of C1: with `W` and `W.I` both recorded, `W.I` is rewritten at `W`. -/
theorem resolve_shortest_prefix_witness :
    resolve [("W", ["X", "Base"]), ("W.I", ["Q"])] ["W", "I"] 0 =
      resolve [("W", ["X", "Base"]), ("W.I", ["Q"])] (["X", "Base"] ++ ["W", "I"].drop 1) (0 + 1) :=
  resolve_shortest_prefix [("W", ["X", "Base"]), ("W.I", ["Q"])] ["W", "I"] ["X", "Base"] 0 1
    (by decide) (by decide) (by decide) (by decide)
    (fun j h1 h2 => absurd h1 (by omega))

/-- C2: for every links map, target `T` and depth `d ≤ 128`, when no non-empty prefix of `T`
renders to a recorded link source, `resolve(T, d)` returns `T` itself and no error. -/
theorem resolve_no_match (links : List (String × P)) (T : P) (d : Nat)
    (hd : d ≤ MaxLinksDepth)
    (hnone : ∀ j, 1 ≤ j → j ≤ T.length → links.lookup (pathString (T.take j)) = none) :
    resolve links T d = .ok T := by
  have hscan : findRedirect links T = none :=
    scanFrom_eq_none links T T.length 1 (fun j h1 h2 => hnone j h1 (by omega))
  exact resolve_of_findRedirect_none links T d hd hscan

/-- A witness of C2: with only `W` recorded, `X.Base.I` is returned as it is. -/
theorem resolve_no_match_witness :
    resolve [("W", ["X", "Base"])] ["X", "Base", "I"] 128 = .ok ["X", "Base", "I"] :=
  resolve_no_match [("W", ["X", "Base"])] ["X", "Base", "I"] 128 (by decide)
    (by decide)

/-! ## Maps, single-segment targets and the frame of the operations -/

theorem pathString_single (s : String) : pathString [s] = s := rfl

theorem lookup_mapSet_self {β : Type} (m : List (String × β)) (k : String) (v : β) :
    (mapSet m k v).lookup k = some v := by
  induction m with
  | nil => simp [mapSet, List.lookup]
  | cons e m ih =>
    obtain ⟨k', v'⟩ := e
    by_cases h : k' = k
    · simp [mapSet, h, List.lookup]
    · have h2 : (k == k') = false := by simpa using fun h3 => h h3.symm
      simp [mapSet, h, List.lookup, h2, ih]

theorem lookup_mapSet_ne {β : Type} (m : List (String × β)) (k j : String) (v : β)
    (hj : j ≠ k) : (mapSet m k v).lookup j = m.lookup j := by
  induction m with
  | nil =>
    have h2 : (j == k) = false := by simpa using hj
    simp [mapSet, List.lookup, h2]
  | cons e m ih =>
    obtain ⟨k', v'⟩ := e
    by_cases h : k' = k
    · subst h
      have h2 : (j == k') = false := by simpa using hj
      simp [mapSet, List.lookup, h2]
    · simp only [mapSet, h, if_false, List.lookup, ih]

theorem mapSet_new {β : Type} (m : List (String × β)) (k : String) (v : β)
    (h : m.lookup k = none) : mapSet m k v = m ++ [(k, v)] := by
  induction m with
  | nil => rfl
  | cons e m ih =>
    obtain ⟨k', v'⟩ := e
    by_cases hk : k' = k
    · subst hk
      simp [List.lookup] at h
    · have h2 : (k == k') = false := by simpa using fun h3 => hk h3.symm
      simp only [List.lookup, h2] at h
      simp [mapSet, hk, ih h]

theorem findRedirect_single (links : List (String × P)) (s : String) :
    findRedirect links [s] = (links.lookup s).map (fun r => (1, r)) := by
  unfold findRedirect
  simp only [List.length_singleton, scanFrom, List.take_succ_cons, List.take_zero]
  rw [pathString_single]
  cases links.lookup s <;> rfl

theorem resolve_single_step (links : List (String × P)) (s : String) (R : P) (d : Nat)
    (hd : d ≤ MaxLinksDepth) (h : links.lookup s = some R) :
    resolve links [s] d = resolve links R (d + 1) := by
  rw [resolve_eq links [s] d, if_neg (by omega), findRedirect_single, h]
  simp

theorem resolve_single_none (links : List (String × P)) (s : String) (d : Nat)
    (hd : d ≤ MaxLinksDepth) (h : links.lookup s = none) :
    resolve links [s] d = .ok [s] := by
  rw [resolve_eq links [s] d, if_neg (by omega), findRedirect_single, h]
  rfl

theorem resolve_too_deep (links : List (String × P)) (T : P) (d : Nat)
    (hd : MaxLinksDepth < d) : resolve links T d = .error (Error.maxDepth T) := by
  rw [resolve_eq links T d, if_pos hd]

section Frame

variable {V T : Type}

theorem finishLink_links (env : Env V T) (loader : Loader V) (src : String) (target : P) :
    (loader.finishLink env src target).links = loader.links := by
  unfold Loader.finishLink
  repeat' split
  all_goals rfl

theorem finishLinks_links (env : Env V T) (loader : Loader V) (order : List (String × P)) :
    (loader.finishLinks env order).links = loader.links := by
  induction order generalizing loader with
  | nil => rfl
  | cons e order ih =>
    show ((loader.finishLink env e.1 e.2).finishLinks env order).links = loader.links
    rw [ih, finishLink_links]

theorem finishLinks_cons (env : Env V T) (loader : Loader V) (src : String) (target : P)
    (order : List (String × P)) :
    loader.finishLinks env ((src, target) :: order) =
      (loader.finishLink env src target).finishLinks env order :=
  rfl

theorem finishLinks_nil (env : Env V T) (loader : Loader V) :
    loader.finishLinks env [] = loader := rfl

/-- A link whose resolution fails is recorded, and nothing else changes. -/
theorem finishLink_of_resolve_error (env : Env V T) (loader : Loader V) (src : String)
    (target : P) (err : Error) (h : resolve loader.links target 0 = .error err) :
    loader.finishLink env src target =
      { loader with errors := loader.errors ++ [Error.located err (pathNew src)] } := by
  unfold Loader.finishLink
  rw [h]
  rfl

end Frame

theorem perm_pair_cases {α : Type} {x y : α} {l : List α} (h : l.Perm [x, y]) :
    l = [x, y] ∨ l = [y, x] := by
  have hlen : l.length = 2 := by simpa using h.length_eq
  obtain ⟨p, q, rfl⟩ := List.length_eq_two.mp hlen
  have hx : x ∈ [p, q] := h.symm.subset (by simp)
  have hy : y ∈ [p, q] := h.symm.subset (by simp)
  have hp : p ∈ [x, y] := h.subset (by simp)
  have hq : q ∈ [x, y] := h.subset (by simp)
  simp only [List.mem_cons, List.mem_singleton, List.not_mem_nil, or_false] at hx hy hp hq
  rcases hp with rfl | rfl <;> rcases hq with rfl | rfl
  · rcases hy with rfl | rfl <;> simp
  · simp
  · simp
  · rcases hx with rfl | rfl <;> simp

/-! ## The two-node cycle -/

/-- Resolution in a two-node cycle runs into the depth bound from every depth. -/
theorem resolve_cycle (links : List (String × P)) (a b : String)
    (ha : links.lookup a = some [b]) (hb : links.lookup b = some [a]) (n d : Nat)
    (hn : d + n = MaxLinksDepth + 1) :
    resolve links [a] d = .error (Error.maxDepth (if n % 2 = 0 then [a] else [b])) ∧
      resolve links [b] d = .error (Error.maxDepth (if n % 2 = 0 then [b] else [a])) := by
  induction n generalizing d with
  | zero =>
    have hd : MaxLinksDepth < d := by omega
    simp [resolve_too_deep links _ d hd]
  | succ n ih =>
    have hd : d ≤ MaxLinksDepth := by omega
    obtain ⟨h1, h2⟩ := ih (d + 1) (by omega)
    rw [resolve_single_step links a [b] d hd ha, resolve_single_step links b [a] d hd hb, h1, h2]
    rcases Nat.mod_two_eq_zero_or_one n with h | h
    · have h3 : (n + 1) % 2 = 1 := by omega
      simp [h, h3]
    · have h3 : (n + 1) % 2 = 0 := by omega
      simp [h, h3]

section Cycle

variable {V T : Type}

theorem Finish_eq (env : Env V T) (loader : Loader V) (order : List (String × P)) :
    loader.Finish env order =
      if (loader.finishLinks env order).errors = [] then
        (some (loader.finishLinks env order).Values, none)
      else (none, some (loader.finishLinks env order).errors) := by
  unfold Loader.Finish
  cases h : (loader.finishLinks env order).errors <;> simp

theorem Finish_error_none (env : Env V T) (loader : Loader V) (order : List (String × P))
    (h : (loader.finishLinks env order).errors = []) : (loader.Finish env order).2 = none := by
  rw [Finish_eq, if_pos h]

/-- C4: with exactly the two links `Link(a,b)` and `Link(b,a)` recorded, `a` and `b` distinct
single segments, resolving either link's target ends with the depth-exceeded error, and
`Finish`, in whichever order it visits the two links, returns no value and the error
sequence extended by one depth-exceeded record for each link. -/
theorem cycle_fails (env : Env V T) (loader : Loader V) (a b : String) (hab : a ≠ b)
    (hlinks : loader.links = []) (order : List (String × P))
    (hperm : order.Perm ((loader.Link [a] [b]).Link [b] [a]).links) :
    resolve ((loader.Link [a] [b]).Link [b] [a]).links [b] 0 = .error (Error.maxDepth [a]) ∧
    resolve ((loader.Link [a] [b]).Link [b] [a]).links [a] 0 = .error (Error.maxDepth [b]) ∧
    (((loader.Link [a] [b]).Link [b] [a]).Finish env order =
        (none, some (loader.errors ++ [Error.located (Error.maxDepth [a]) (pathNew a),
          Error.located (Error.maxDepth [b]) (pathNew b)])) ∨
      ((loader.Link [a] [b]).Link [b] [a]).Finish env order =
        (none, some (loader.errors ++ [Error.located (Error.maxDepth [b]) (pathNew b),
          Error.located (Error.maxDepth [a]) (pathNew a)]))) := by
  have hl : ((loader.Link [a] [b]).Link [b] [a]).links = [(a, [b]), (b, [a])] := by
    simp [Loader.Link, hlinks, mapSet, pathString_single, hab]
  have hla : ([(a, [b]), (b, [a])] : List (String × P)).lookup a = some [b] := by
    simp [List.lookup]
  have hlb : ([(a, [b]), (b, [a])] : List (String × P)).lookup b = some [a] := by
    have h2 : (b == a) = false := by simpa using fun h3 => hab h3.symm
    simp [List.lookup, h2]
  obtain ⟨ra, rb⟩ := resolve_cycle _ a b hla hlb (MaxLinksDepth + 1) 0 (by omega)
  have hodd : (MaxLinksDepth + 1) % 2 = 1 := by decide
  simp only [hodd, one_ne_zero, if_false] at ra rb
  rw [hl] at hperm ⊢
  refine ⟨rb, ra, ?_⟩
  generalize hL : (loader.Link [a] [b]).Link [b] [a] = L at hl
  have step : ∀ (M : Loader V) (src : String) (x y : String), M.links = [(a, [b]), (b, [a])] →
      resolve [(a, [b]), (b, [a])] [x] 0 = .error (Error.maxDepth [y]) →
      M.finishLink env src [x] =
        { M with errors := M.errors ++ [Error.located (Error.maxDepth [y]) (pathNew src)] } :=
    fun M src x y hM hr => finishLink_of_resolve_error env M src [x] _ (by rw [hM]; exact hr)
  have hLe : L.errors = loader.errors := by rw [← hL]; rfl
  rw [Finish_eq]
  rcases perm_pair_cases hperm with ho | ho
  · left
    subst ho
    rw [finishLinks_cons, finishLinks_cons, finishLinks_nil, step L a b a hl rb,
      step _ b a b (by exact hl) ra]
    simp [hLe]
  · right
    subst ho
    rw [finishLinks_cons, finishLinks_cons, finishLinks_nil, step L b a b hl ra,
      step _ a b a (by exact hl) rb]
    simp [hLe]

/-- A witness of C4: the cycle between `a` and `b` on an empty map. -/
theorem cycle_fails_witness :
    resolve (((Loader.fresh (Value.map [])).Link ["a"] ["b"]).Link ["b"] ["a"]).links ["b"] 0 =
      .error (Error.maxDepth ["a"]) :=
  (cycle_fails bareEnv (Loader.fresh (Value.map [])) "a" "b" (by decide) rfl
    [("a", ["b"]), ("b", ["a"])] (List.Perm.refl _)).1

end Cycle

/-! ## Chains of links and the depth bound -/

theorem lookup_map_of_inj (p : Nat → String) (f : Nat → P) (l : List Nat) (j : Nat)
    (hinj : ∀ i ∈ l, p i = p j → i = j) :
    (l.map (fun i => (p i, f i))).lookup (p j) = if j ∈ l then some (f j) else none := by
  induction l with
  | nil => rfl
  | cons i l ih =>
    have ih2 := ih (fun i2 h2 => hinj i2 (List.mem_cons_of_mem _ h2))
    by_cases h : p i = p j
    · have hij : i = j := hinj i (List.mem_cons_self _ _) h
      subst hij
      simp [List.lookup]
    · have hij : ¬ j = i := fun h2 => h (by rw [h2])
      have h2 : (p j == p i) = false := by simpa using fun h3 => h h3.symm
      simp only [List.map_cons, List.lookup, h2, ih2, List.mem_cons, hij, false_or]

theorem lookup_chainLinks (p : Nat → String) (n j : Nat)
    (hinj : ∀ i j, i ≤ n → j ≤ n → p i = p j → i = j) (hj : j ≤ n) :
    (chainLinks p n).lookup (p j) = if j < n then some [p (j + 1)] else none := by
  unfold chainLinks
  rw [lookup_map_of_inj p (fun i => [p (i + 1)]) (List.range n) j
    (fun i hi h => hinj i j (Nat.le_of_lt (List.mem_range.mp hi)) hj h)]
  simp [List.mem_range]

theorem linkChain_succ {V : Type} (loader : Loader V) (p : Nat → String) (n : Nat) :
    linkChain loader p (n + 1) = (linkChain loader p n).Link [p n] [p (n + 1)] := by
  simp [linkChain, List.range_succ, List.foldl_append]

theorem linkChain_Values {V : Type} (loader : Loader V) (p : Nat → String) (n : Nat) :
    (linkChain loader p n).Values = loader.Values := by
  induction n with
  | zero => rfl
  | succ n ih => rw [linkChain_succ]; exact ih

theorem linkChain_errors {V : Type} (loader : Loader V) (p : Nat → String) (n : Nat) :
    (linkChain loader p n).errors = loader.errors := by
  induction n with
  | zero => rfl
  | succ n ih => rw [linkChain_succ]; exact ih

theorem linkChain_links {V : Type} (loader : Loader V) (p : Nat → String) (n : Nat)
    (hlinks : loader.links = []) (hinj : ∀ i j, i ≤ n → j ≤ n → p i = p j → i = j) :
    (linkChain loader p n).links = chainLinks p n := by
  induction n with
  | zero => simpa [linkChain, chainLinks] using hlinks
  | succ n ih =>
    have hinj2 : ∀ i j, i ≤ n → j ≤ n → p i = p j → i = j :=
      fun i j hi hj h => hinj i j (by omega) (by omega) h
    have hnone : (chainLinks p n).lookup (p n) = none := by
      rw [lookup_chainLinks p n n hinj2 (Nat.le_refl n)]
      simp
    rw [linkChain_succ]
    show mapSet (linkChain loader p n).links (pathString [p n]) [p (n + 1)] = chainLinks p (n + 1)
    rw [ih hinj2, pathString_single, mapSet_new _ _ _ hnone]
    simp [chainLinks, List.range_succ]

/-- A chain is followed to its end when the hops left fit under the depth bound. -/
theorem chain_resolve_ok (p : Nat → String) (n : Nat)
    (hinj : ∀ i j, i ≤ n → j ≤ n → p i = p j → i = j) (m j d : Nat)
    (hj : j + m = n) (hd : d + m ≤ MaxLinksDepth) :
    resolve (chainLinks p n) [p j] d = .ok [p n] := by
  induction m generalizing j d with
  | zero =>
    have hjn : j = n := by omega
    subst hjn
    apply resolve_single_none _ _ _ (by omega)
    rw [lookup_chainLinks p j j hinj (Nat.le_refl j)]
    simp
  | succ m ih =>
    have hl : (chainLinks p n).lookup (p j) = some [p (j + 1)] := by
      rw [lookup_chainLinks p n j hinj (by omega)]
      simp
      omega
    rw [resolve_single_step _ _ _ d (by omega) hl]
    exact ih (j + 1) (d + 1) (by omega) (by omega)

/-- A chain with more hops left than the depth bound allows ends with the depth-exceeded
error, reported for the path reached at depth `MaxLinksDepth + 1`. -/
theorem chain_resolve_error (p : Nat → String) (n : Nat)
    (hinj : ∀ i j, i ≤ n → j ≤ n → p i = p j → i = j) (m j d : Nat)
    (hj : j + m ≤ n) (hd : d + m = MaxLinksDepth + 1) :
    resolve (chainLinks p n) [p j] d = .error (Error.maxDepth [p (j + m)]) := by
  induction m generalizing j d with
  | zero =>
    have hd2 : MaxLinksDepth < d := by omega
    exact resolve_too_deep _ _ _ hd2
  | succ m ih =>
    have hl : (chainLinks p n).lookup (p j) = some [p (j + 1)] := by
      rw [lookup_chainLinks p n j hinj (by omega)]
      simp
      omega
    have hidx : j + 1 + m = j + (m + 1) := by omega
    rw [resolve_single_step _ _ _ d (by omega) hl, ih (j + 1) (d + 1) (by omega) (by omega),
      hidx]

/-! ## Errors only accumulate -/

section Accumulate

variable {V T : Type}

/-- One link of `Finish` either assigns the resolved, non-nil value at the parsed source and
records nothing, or records exactly one error at the parsed source and changes nothing else. -/
theorem finishLink_cases (env : Env V T) (loader : Loader V) (src : String) (target : P) :
    (∃ dst value root, resolve loader.links target 0 = .ok dst ∧
        env.get dst loader.Values = .ok value ∧ env.isNil value = false ∧
        env.set (pathNew src) loader.Values value = .ok root ∧
        loader.finishLink env src target = { loader with Values := root }) ∨
    (∃ cause, loader.finishLink env src target =
        { loader with errors := loader.errors ++ [Error.located cause (pathNew src)] }) := by
  cases h1 : resolve loader.links target 0 with
  | error err => exact Or.inr ⟨err, by simp [Loader.finishLink, h1, Loader.ErrorAt]⟩
  | ok dst =>
    cases h2 : env.get dst loader.Values with
    | error err => exact Or.inr ⟨err, by simp [Loader.finishLink, h1, h2, Loader.ErrorAt]⟩
    | ok value =>
      cases h3 : env.isNil value with
      | true =>
        exact Or.inr ⟨Error.nilLink src dst,
          by simp [Loader.finishLink, h1, h2, h3, Loader.ErrorAt]⟩
      | false =>
        cases h4 : env.set (pathNew src) loader.Values value with
        | error err =>
          exact Or.inr ⟨err, by simp [Loader.finishLink, h1, h2, h3, h4, Loader.ErrorAt]⟩
        | ok root =>
          exact Or.inl ⟨dst, value, root, rfl, h2, h3, h4,
            by simp [Loader.finishLink, h1, h2, h3, h4]⟩

theorem finishLink_errors (env : Env V T) (loader : Loader V) (src : String) (target : P) :
    ∃ suffix, (loader.finishLink env src target).errors = loader.errors ++ suffix := by
  rcases finishLink_cases env loader src target with ⟨_, _, _, _, _, _, _, h⟩ | ⟨cause, h⟩
  · exact ⟨[], by rw [h]; simp⟩
  · exact ⟨[Error.located cause (pathNew src)], by rw [h]⟩

theorem finishLinks_errors (env : Env V T) (loader : Loader V) (order : List (String × P)) :
    ∃ suffix, (loader.finishLinks env order).errors = loader.errors ++ suffix := by
  induction order generalizing loader with
  | nil => exact ⟨[], by simp [finishLinks_nil]⟩
  | cons e order ih =>
    obtain ⟨src, target⟩ := e
    obtain ⟨s1, h1⟩ := finishLink_errors env loader src target
    obtain ⟨s2, h2⟩ := ih (loader.finishLink env src target)
    exact ⟨s1 ++ s2, by rw [finishLinks_cons, h2, h1, List.append_assoc]⟩

/-- A link whose resolution fails leaves its record in the errors of the whole loop. -/
theorem finishLinks_records_failure (env : Env V T) (loader : Loader V)
    (order : List (String × P)) (src : String) (target : P) (err : Error)
    (hmem : (src, target) ∈ order) (hres : resolve loader.links target 0 = .error err) :
    Error.located err (pathNew src) ∈ (loader.finishLinks env order).errors := by
  induction order generalizing loader with
  | nil => simp at hmem
  | cons e order ih =>
    obtain ⟨src2, target2⟩ := e
    rw [finishLinks_cons]
    rcases List.mem_cons.mp hmem with h | h
    · obtain ⟨h1, h2⟩ := Prod.mk.inj h
      subst h1
      subst h2
      obtain ⟨suffix, hs⟩ := finishLinks_errors env (loader.finishLink env src target) order
      rw [hs, finishLink_of_resolve_error env loader src target err hres]
      simp
    · exact ih (loader.finishLink env src2 target2) h (by rw [finishLink_links]; exact hres)

theorem Add_links [DecidableEq T] (env : Env V T) (loader : Loader V) (src : P) (value : V) :
    (loader.Add env src value).links = loader.links := by
  unfold Loader.Add
  repeat' split
  all_goals rfl

/-- C3 (amended to 130 links): for a non-cyclic chain of 130 links `Link(p0,p1)`, ...,
`Link(p129,p130)` over 131 distinct single segments, with a value added at `p130`, `Finish`
returns no value and an error sequence that holds the depth-exceeded error of the link at
`p0`, in whichever order it visits the links. -/
theorem chain_too_long_fails [DecidableEq T] (env : Env V T) (root value : V)
    (p : Nat → String) (hinj : ∀ i j, i ≤ 130 → j ≤ 130 → p i = p j → i = j)
    (order : List (String × P))
    (hperm : order.Perm ((linkChain (Loader.fresh root) p 130).Add env [p 130] value).links) :
    ∃ errs, ((linkChain (Loader.fresh root) p 130).Add env [p 130] value).Finish env order =
        (none, some errs) ∧
      Error.located (Error.maxDepth [p 130]) (pathNew (p 0)) ∈ errs := by
  have hl : ((linkChain (Loader.fresh root) p 130).Add env [p 130] value).links =
      chainLinks p 130 := by
    rw [Add_links, linkChain_links _ _ _ rfl hinj]
  have hres : resolve (chainLinks p 130) [p 1] 0 = .error (Error.maxDepth [p 130]) :=
    chain_resolve_error p 130 hinj 129 1 0 (by decide) (by decide)
  have hmem : (p 0, [p 1]) ∈ order := by
    apply hperm.symm.subset
    rw [hl]
    exact List.mem_map.mpr ⟨0, List.mem_range.mpr (by decide), rfl⟩
  have hrec := finishLinks_records_failure env _ order (p 0) [p 1] _ hmem (by rw [hl]; exact hres)
  refine ⟨_, ?_, hrec⟩
  rw [Finish_eq, if_neg (List.ne_nil_of_mem hrec)]

end Accumulate

theorem chainName_injective (i j : Nat) (h : chainName i = chainName j) : i = j := by
  have h2 := congrArg (fun s => s.data.length) h
  simpa [chainName] using h2

/-- A witness of the amended C3: the chain of 130 links over `p`, `pp`, ... on an empty map. -/
theorem chain_too_long_fails_witness :
    ∃ errs, ((linkChain (Loader.fresh (Value.map [])) chainName 130).Add bareEnv
        [chainName 130] (Value.str "v")).Finish bareEnv
          ((linkChain (Loader.fresh (Value.map [])) chainName 130).Add bareEnv
            [chainName 130] (Value.str "v")).links = (none, some errs) ∧
      Error.located (Error.maxDepth [chainName 130]) (pathNew (chainName 0)) ∈ errs :=
  chain_too_long_fails bareEnv (Value.map []) (Value.str "v") chainName
    (fun i j _ _ h => chainName_injective i j h) _ (List.Perm.refl _)

/-! ## The loader on the value tree -/

theorem splitDot_of_not_mem (cs : List Char) (h : '.' ∉ cs) : splitDot cs = [cs] := by
  induction cs with
  | nil => rfl
  | cons c cs ih =>
    have hc : c ≠ '.' := fun h2 => h (by simp [h2])
    have hcs : '.' ∉ cs := fun h2 => h (List.mem_cons_of_mem _ h2)
    simp [splitDot, hc, ih hcs]

theorem pathNew_single (s : String) (h : '.' ∉ s.data) : pathNew s = [s] := by
  simp [pathNew, splitDot_of_not_mem s.data h]

theorem treeGet_single_map (entries : List (String × Value)) (k : String) (v : Value)
    (h : entries.lookup k = some v) : treeGet [k] (Value.map entries) = .ok v := by
  simp [treeGet, Value.child, h]

theorem treeSet_single_map (entries : List (String × Value)) (k : String) (v : Value) :
    treeSet [k] (Value.map entries) v = .ok (Value.map (mapSet entries k v)) := by
  simp [treeSet, Value.assign]

/-- On a map root, a link whose target resolves to a key holding a non-nil value assigns that
value at the (dot-free) source key. -/
theorem finishLink_tree_ok (registry : List (String × Value))
    (converters : Ty → Option (Value → Except Error Value)) (loader : Loader Value)
    (entries : List (String × Value)) (src k : String) (target : P) (v : Value)
    (hroot : loader.Values = Value.map entries)
    (hres : resolve loader.links target 0 = .ok [k]) (hk : entries.lookup k = some v)
    (hv : v.isNil = false) (hsrc : '.' ∉ src.data) :
    loader.finishLink (treeEnv registry converters) src target =
      { loader with Values := Value.map (mapSet entries src v) } := by
  simp [Loader.finishLink, treeEnv, hres, hroot, treeGet_single_map entries k v hk, hv,
    pathNew_single src hsrc, treeSet_single_map]

/-- The loop of `Finish` over entries of a chain that fits under the depth bound records no
error and keeps the value at the end of the chain. -/
theorem finishLinks_chain_tree (registry : List (String × Value))
    (converters : Ty → Option (Value → Except Error Value)) (p : Nat → String) (n : Nat)
    (hn : n ≤ MaxLinksDepth + 1) (hinj : ∀ i j, i ≤ n → j ≤ n → p i = p j → i = j)
    (hdot : ∀ i, i < n → '.' ∉ (p i).data) (v : Value) (hv : v.isNil = false)
    (order : List (String × P)) (horder : ∀ e ∈ order, ∃ i, i < n ∧ e = (p i, [p (i + 1)]))
    (loader : Loader Value) (hlinks : loader.links = chainLinks p n)
    (herr : loader.errors = [])
    (hroot : ∃ entries, loader.Values = Value.map entries ∧ entries.lookup (p n) = some v) :
    (loader.finishLinks (treeEnv registry converters) order).errors = [] ∧
      ∃ entries, (loader.finishLinks (treeEnv registry converters) order).Values =
        Value.map entries ∧ entries.lookup (p n) = some v := by
  induction order generalizing loader with
  | nil => exact ⟨herr, hroot⟩
  | cons e order ih =>
    obtain ⟨i, hi, rfl⟩ := horder e (List.mem_cons_self _ _)
    obtain ⟨entries, hr1, hr2⟩ := hroot
    have hres : resolve loader.links [p (i + 1)] 0 = .ok [p n] := by
      rw [hlinks]
      exact chain_resolve_ok p n hinj (n - (i + 1)) (i + 1) 0 (by omega) (by omega)
    have hne : p n ≠ p i := fun h => by
      have := hinj n i (Nat.le_refl n) (by omega) h
      omega
    rw [finishLinks_cons, finishLink_tree_ok registry converters loader entries (p i) (p n)
      [p (i + 1)] v hr1 hres hr2 hv (hdot i hi)]
    exact ih (fun e he => horder e (List.mem_cons_of_mem _ he)) _ hlinks herr
      ⟨_, rfl, by rw [lookup_mapSet_ne _ _ _ _ hne]; exact hr2⟩

theorem chainName_no_dot (i : Nat) : '.' ∉ (chainName i).data := by
  simp [chainName, List.mem_replicate]

/-- C3, as stated, fails: the chain of 129 links `Link(p, pp)`, `Link(pp, ppp)`, ... on an
empty map, with a value added at the last name, finishes with a nil error. -/
theorem chain_of_129_links_succeeds :
    (((linkChain (Loader.fresh (Value.map [])) chainName 129).Add bareEnv [chainName 129]
      (Value.str "v")).Finish bareEnv (chainLinks chainName 129)).2 = none := by
  have hinj : ∀ i j, i ≤ 129 → j ≤ 129 → chainName i = chainName j → i = j :=
    fun i j _ _ h => chainName_injective i j h
  have hl : ((linkChain (Loader.fresh (Value.map [])) chainName 129).Add bareEnv [chainName 129]
      (Value.str "v")).links = chainLinks chainName 129 := by
    rw [Add_links, linkChain_links _ _ _ rfl hinj]
  have hadd : (linkChain (Loader.fresh (Value.map [])) chainName 129).Add bareEnv
      [chainName 129] (Value.str "v") =
      { Values := Value.map [(chainName 129, Value.str "v")],
        links := (linkChain (Loader.fresh (Value.map [])) chainName 129).links,
        errors := [] } := by
    simp [Loader.Add, bareEnv, treeEnv, linkChain_Values, linkChain_errors, Loader.fresh,
      treeSet_single_map, mapSet]
  have h := finishLinks_chain_tree [] (fun _ => none) chainName 129 (by decide) hinj
    (fun i _ => chainName_no_dot i) (Value.str "v") rfl (chainLinks chainName 129)
    (fun e he => by
      obtain ⟨i, hi, rfl⟩ := List.mem_map.mp he
      exact ⟨i, List.mem_range.mp hi, rfl⟩)
    ((linkChain (Loader.fresh (Value.map [])) chainName 129).Add bareEnv [chainName 129]
      (Value.str "v")) hl (by rw [hadd])
    ⟨[(chainName 129, Value.str "v")], by rw [hadd], by simp [List.lookup]⟩
  exact Finish_error_none _ _ _ h.1

/-! ## Transitivity -/

/-- C5, as stated, fails on a source segment that holds the delimiter: after
`Link(["x.y"], ["b"])`, `Link(["b"], ["c"])` and `Add(["c"], "X")` on an empty map, `Finish`
parses the key `x.y` back into two segments and returns no value and an InvalidPath error. -/
theorem transitivity_fails_on_dotted_source :
    ((((Loader.fresh (Value.map [])).Link ["x.y"] ["b"]).Link ["b"] ["c"]).Add bareEnv ["c"]
        (Value.str "X")).Finish bareEnv [("x.y", ["b"]), ("b", ["c"])] =
      (none, some [Error.located Error.ErrInvalidPath ["x", "y"]]) := by
  rfl

/-- C5 (amended to sources without the delimiter): on a fresh loader whose root is an empty
name-keyed map, for distinct single segments `a`, `b`, `c`, with no dot in `a` and `b`, and
every non-nil value `v`, after `Link(a,b)`, `Link(b,c)` and `Add(c,v)`, `Finish` returns no
error and a root in which `a`, `b` and `c` all hold `v`, in whichever order it visits the
links. -/
theorem transitivity (registry : List (String × Value))
    (converters : Ty → Option (Value → Except Error Value)) (a b c : String) (v : Value)
    (hab : a ≠ b) (hac : a ≠ c) (hbc : b ≠ c) (hv : v.isNil = false)
    (ha : '.' ∉ a.data) (hb : '.' ∉ b.data) (order : List (String × P))
    (hperm : order.Perm ((((Loader.fresh (Value.map [])).Link [a] [b]).Link [b] [c]).Add
      (treeEnv registry converters) [c] v).links) :
    ∃ root, ((((Loader.fresh (Value.map [])).Link [a] [b]).Link [b] [c]).Add
        (treeEnv registry converters) [c] v).Finish (treeEnv registry converters) order =
          (some root, none) ∧
      treeGet [a] root = .ok v ∧ treeGet [b] root = .ok v ∧ treeGet [c] root = .ok v := by
  have hL : (((Loader.fresh (Value.map [])).Link [a] [b]).Link [b] [c]).Add
      (treeEnv registry converters) [c] v =
      { Values := Value.map [(c, v)], links := [(a, [b]), (b, [c])], errors := [] } := by
    simp [Loader.Add, Loader.Link, Loader.fresh, treeEnv, treeSet_single_map, mapSet,
      pathString_single, hab]
  rw [hL] at hperm ⊢
  have hba : b ≠ a := fun h => hab h.symm
  have hca : c ≠ a := fun h => hac h.symm
  have hcb : c ≠ b := fun h => hbc h.symm
  have hlb : ([(a, [b]), (b, [c])] : List (String × P)).lookup b = some [c] := by
    have h2 : (b == a) = false := by simpa using hba
    simp [List.lookup, h2]
  have hlc : ([(a, [b]), (b, [c])] : List (String × P)).lookup c = none := by
    have h2 : (c == a) = false := by simpa using hca
    have h3 : (c == b) = false := by simpa using hcb
    simp [List.lookup, h2, h3]
  have rc : ∀ d, d ≤ MaxLinksDepth → resolve [(a, [b]), (b, [c])] [c] d = .ok [c] :=
    fun d hd => resolve_single_none _ c d hd hlc
  have rb : resolve [(a, [b]), (b, [c])] [b] 0 = .ok [c] := by
    rw [resolve_single_step _ b [c] 0 (by decide) hlb]
    exact rc 1 (by decide)
  have stepa : ∀ (M : Loader Value) (entries : List (String × Value)),
      M.links = [(a, [b]), (b, [c])] → M.Values = Value.map entries →
      entries.lookup c = some v →
      M.finishLink (treeEnv registry converters) a [b] =
        { M with Values := Value.map (mapSet entries a v) } :=
    fun M entries hM hV hc =>
      finishLink_tree_ok registry converters M entries a c [b] v hV (by rw [hM]; exact rb) hc hv ha
  have stepb : ∀ (M : Loader Value) (entries : List (String × Value)),
      M.links = [(a, [b]), (b, [c])] → M.Values = Value.map entries →
      entries.lookup c = some v →
      M.finishLink (treeEnv registry converters) b [c] =
        { M with Values := Value.map (mapSet entries b v) } :=
    fun M entries hM hV hc =>
      finishLink_tree_ok registry converters M entries b c [c] v hV
        (by rw [hM]; exact rc 0 (by decide)) hc hv hb
  have hc0 : ([(c, v)] : List (String × Value)).lookup c = some v := by simp [List.lookup]
  rcases perm_pair_cases hperm with ho | ho
  · subst ho
    refine ⟨Value.map (mapSet (mapSet [(c, v)] a v) b v), ?_, ?_, ?_, ?_⟩
    · rw [Finish_eq, finishLinks_cons, finishLinks_cons, finishLinks_nil,
        stepa _ [(c, v)] rfl rfl hc0,
        stepb _ (mapSet [(c, v)] a v) rfl rfl (by rw [lookup_mapSet_ne _ _ _ _ hca]; exact hc0)]
      rfl
    · exact treeGet_single_map _ _ _
        (by rw [lookup_mapSet_ne _ _ _ _ hab, lookup_mapSet_self])
    · exact treeGet_single_map _ _ _ (lookup_mapSet_self _ _ _)
    · exact treeGet_single_map _ _ _
        (by rw [lookup_mapSet_ne _ _ _ _ hcb, lookup_mapSet_ne _ _ _ _ hca]; exact hc0)
  · subst ho
    refine ⟨Value.map (mapSet (mapSet [(c, v)] b v) a v), ?_, ?_, ?_, ?_⟩
    · rw [Finish_eq, finishLinks_cons, finishLinks_cons, finishLinks_nil,
        stepb _ [(c, v)] rfl rfl hc0,
        stepa _ (mapSet [(c, v)] b v) rfl rfl (by rw [lookup_mapSet_ne _ _ _ _ hcb]; exact hc0)]
      rfl
    · exact treeGet_single_map _ _ _ (lookup_mapSet_self _ _ _)
    · exact treeGet_single_map _ _ _
        (by rw [lookup_mapSet_ne _ _ _ _ hba, lookup_mapSet_self])
    · exact treeGet_single_map _ _ _
        (by rw [lookup_mapSet_ne _ _ _ _ hca, lookup_mapSet_ne _ _ _ _ hcb]; exact hc0)

/-- A witness of the amended C5: the links of the repository's test, `link-a` to `link-b` to
`string`, with the value `blah`. -/
theorem transitivity_witness :
    ∃ root, ((((Loader.fresh (Value.map [])).Link ["link-a"] ["link-b"]).Link ["link-b"]
        ["string"]).Add bareEnv ["string"] (Value.str "blah")).Finish bareEnv
          [("link-b", ["string"]), ("link-a", ["link-b"])] = (some root, none) ∧
      treeGet ["link-a"] root = .ok (Value.str "blah") ∧
      treeGet ["link-b"] root = .ok (Value.str "blah") ∧
      treeGet ["string"] root = .ok (Value.str "blah") :=
  transitivity [] (fun _ => none) "link-a" "link-b" "string" (Value.str "blah")
    (by decide) (by decide) (by decide) rfl (by decide) (by decide)
    [("link-b", ["string"]), ("link-a", ["link-b"])] (List.Perm.swap _ _ _)

/-! ## Prefix lift -/

/-- C6, as stated, fails for a link whose source is the empty path: it is recorded under the
empty rendering, which the scan, starting at length 1, never reaches through the empty
prefix; the target `z` is returned as it is, not rewritten to `t.z`. -/
theorem prefix_lift_fails_on_empty_source :
    ([("", ["t"])] : List (String × P)).lookup (pathString []) = some ["t"] ∧
    (∀ j, 1 ≤ j → j < ([] : P).length →
      ([("", ["t"])] : List (String × P)).lookup (pathString (([] : P).take j)) = none) ∧
    (∀ j, 1 ≤ j → j ≤ (["t"] ++ ["z"] : P).length →
      ([("", ["t"])] : List (String × P)).lookup (pathString ((["t"] ++ ["z"] : P).take j)) =
        none) ∧
    resolve [("", ["t"])] ([] ++ ["z"]) 0 = .ok ["z"] ∧
    resolve [("", ["t"])] ([] ++ ["z"]) 0 ≠ .ok (["t"] ++ ["z"]) := by
  have hr : resolve [("", ["t"])] ([] ++ ["z"]) 0 = .ok ["z"] := rfl
  refine ⟨by decide, by decide, by decide, hr, ?_⟩
  rw [hr]
  exact fun h => absurd (Except.ok.inj h) (by decide)

/-- C6 (amended to a non-empty source): for every links map that holds a link from a non-empty
`src` to `tgt` and every suffix `s`, when no proper non-empty prefix of `src` renders to a
recorded source and no non-empty prefix of `tgt ++ s` does, `resolve(src ++ s, 0)` returns
`tgt ++ s`. -/
theorem prefix_lift (links : List (String × P)) (src tgt s : P) (hne : src ≠ [])
    (hlink : links.lookup (pathString src) = some tgt)
    (hsrc : ∀ j, 1 ≤ j → j < src.length → links.lookup (pathString (src.take j)) = none)
    (htgt : ∀ j, 1 ≤ j → j ≤ (tgt ++ s).length →
      links.lookup (pathString ((tgt ++ s).take j)) = none) :
    resolve links (src ++ s) 0 = .ok (tgt ++ s) := by
  have hlen : 1 ≤ src.length := List.length_pos.mpr hne
  have hscan : findRedirect links (src ++ s) = some (src.length, tgt) := by
    apply scanFrom_eq_some links (src ++ s) (src ++ s).length 1 src.length tgt hlen
      (by simp; omega)
    · rw [List.take_left]
      exact hlink
    · intro j hj1 hj2
      rw [List.take_append_of_le_length (Nat.le_of_lt hj2)]
      exact hsrc j hj1 hj2
  have hnone : findRedirect links (tgt ++ s) = none :=
    scanFrom_eq_none links (tgt ++ s) (tgt ++ s).length 1 (fun j h1 h2 => htgt j h1 (by omega))
  rw [resolve_of_findRedirect_some links (src ++ s) tgt 0 src.length (Nat.zero_le _) hscan,
    List.drop_left]
  exact resolve_of_findRedirect_none links (tgt ++ s) 1 (by decide) hnone

/-- A witness of the amended C6: with only `Link("W", "X.Base")` recorded, `W.I` resolves to
`X.Base.I`, although `W.I` was never linked. -/
theorem prefix_lift_witness :
    resolve [("W", ["X", "Base"])] (["W"] ++ ["I"]) 0 = .ok (["X", "Base"] ++ ["I"]) :=
  prefix_lift [("W", ["X", "Base"])] ["W"] ["X", "Base"] ["I"] (by decide) (by decide)
    (by decide) (by decide)

/-! ## What `Finish` returns, and the accumulation of errors -/

/-- C7: for every sequence of `Add`/`Type`/`Link` calls on a fresh loader followed by
`Finish`, the errors at the end are those recorded by the calls followed by those recorded by
the link processing of `Finish`; `Finish` returns the root value and a nil error exactly when
both are empty, and otherwise a nil value and the whole accumulated sequence. -/
theorem Finish_returns {V T : Type} [DecidableEq T] (env : Env V T) (root : V)
    (calls : List (Call V)) (order : List (String × P)) :
    ∃ recorded,
      (((Loader.fresh root).run env calls).finishLinks env order).errors =
        ((Loader.fresh root).run env calls).errors ++ recorded ∧
      ((Loader.fresh root).run env calls).Finish env order =
        (if ((Loader.fresh root).run env calls).errors = [] ∧ recorded = [] then
          (some (((Loader.fresh root).run env calls).finishLinks env order).Values, none)
        else (none, some (((Loader.fresh root).run env calls).errors ++ recorded))) ∧
      ((((Loader.fresh root).run env calls).Finish env order).2 = none ↔
        ((Loader.fresh root).run env calls).errors = [] ∧ recorded = []) := by
  obtain ⟨recorded, hrec⟩ := finishLinks_errors env ((Loader.fresh root).run env calls) order
  refine ⟨recorded, hrec, ?_, ?_⟩
  · rw [Finish_eq, hrec]
    by_cases h : ((Loader.fresh root).run env calls).errors = [] ∧ recorded = []
    · rw [if_pos h, if_pos (by rw [h.1, h.2]; rfl)]
    · rw [if_neg h, if_neg (fun h2 => h (List.append_eq_nil.mp h2))]
  · rw [Finish_eq, hrec]
    by_cases h : ((Loader.fresh root).run env calls).errors = [] ∧ recorded = []
    · simp [h.1, h.2]
    · have h2 : ¬ ((Loader.fresh root).run env calls).errors ++ recorded = [] :=
        fun h2 => h (List.append_eq_nil.mp h2)
      rw [if_neg h2]
      simp only [h, iff_false]
      exact fun h3 => Option.noConfusion h3

/-- `Add` either performs an assignment at `src` and records nothing, or records exactly one
error at `src` and changes nothing else. -/
theorem Add_cases {V T : Type} [DecidableEq T] (env : Env V T) (loader : Loader V) (src : P)
    (value : V) :
    (∃ assigned root, env.set src loader.Values assigned = .ok root ∧
        loader.Add env src value = { loader with Values := root }) ∨
    (∃ cause, loader.Add env src value =
        { loader with errors := loader.errors ++ [Error.located cause src] }) := by
  cases h1 : env.set src loader.Values value with
  | ok root => exact Or.inl ⟨value, root, h1, by simp [Loader.Add, h1]⟩
  | error err =>
    by_cases he : err = Error.ErrInvalidType
    · cases h2 : env.typ src loader.Values with
      | error err2 => exact Or.inr ⟨err2, by simp [Loader.Add, h1, he, h2, Loader.ErrorAt]⟩
      | ok typ =>
        cases h3 : convert env typ value with
        | error err3 =>
          exact Or.inr ⟨err3, by simp [Loader.Add, h1, he, h2, h3, Loader.ErrorAt]⟩
        | ok converted =>
          cases h4 : env.set src loader.Values converted with
          | error err4 =>
            exact Or.inr ⟨err4, by simp [Loader.Add, h1, he, h2, h3, h4, Loader.ErrorAt]⟩
          | ok root =>
            exact Or.inl ⟨converted, root, h4,
              by simp [Loader.Add, h1, he, h2, h3, h4, Loader.ErrorAt]⟩
    · exact Or.inr ⟨err, by simp [Loader.Add, h1, he, Loader.ErrorAt]⟩

/-- `Type` either assigns a new instance of the named type at `src` and records nothing, or
records exactly one error at `src` and changes nothing else. -/
theorem TypeAt_cases {V T : Type} (env : Env V T) (loader : Loader V) (src : P)
    (name : String) :
    (∃ value root, env.new name = some value ∧ env.set src loader.Values value = .ok root ∧
        loader.TypeAt env src name = { loader with Values := root }) ∨
    (∃ cause, loader.TypeAt env src name =
        { loader with errors := loader.errors ++ [Error.located cause src] }) := by
  cases h1 : env.new name with
  | none => exact Or.inr ⟨Error.unknownType name, by simp [Loader.TypeAt, h1, Loader.ErrorAt]⟩
  | some value =>
    cases h2 : env.set src loader.Values value with
    | error err => exact Or.inr ⟨err, by simp [Loader.TypeAt, h1, h2, Loader.ErrorAt]⟩
    | ok root => exact Or.inl ⟨value, root, rfl, h2, by simp [Loader.TypeAt, h1, h2]⟩

theorem intercalate_go_data (acc sep : String) (l : List String) :
    (String.intercalate.go acc sep l).data =
      acc.data ++ l.flatMap (fun a => sep.data ++ a.data) := by
  induction l generalizing acc with
  | nil => simp [String.intercalate.go]
  | cons a l ih => simp [String.intercalate.go, ih, String.data_append, List.append_assoc]

theorem splitDot_join (cs : List Char) :
    ∃ seg rest, splitDot cs = seg :: rest ∧
      seg ++ rest.flatMap (fun a => '.' :: a) = cs := by
  induction cs with
  | nil => exact ⟨[], [], rfl, rfl⟩
  | cons c cs ih =>
    obtain ⟨seg, rest, h1, h2⟩ := ih
    by_cases hc : c = '.'
    · refine ⟨[], seg :: rest, by simp [splitDot, hc, h1], ?_⟩
      simp [h2, hc]
    · refine ⟨c :: seg, rest, by simp [splitDot, hc, h1], ?_⟩
      simp [h2]

/-- Rendering undoes parsing: the path that `Finish` parses from a key renders to the key. -/
theorem pathString_pathNew (s : String) : pathString (pathNew s) = s := by
  obtain ⟨seg, rest, h1, h2⟩ := splitDot_join s.data
  apply String.ext
  simp only [pathString, pathNew, h1, List.map_cons, String.intercalate]
  rw [intercalate_go_data, ← h2]
  simp [List.flatMap_map]

/-- C8: errors accumulate and are never dropped. `Add` and `Type` either succeed (an
assignment at the path, the error sequence as it was) or fail (the root as it was, the error
sequence extended by exactly one record located at the path); `Link` leaves the error
sequence as it was; a link processed by `Finish` either assigns at the parsed source and
records nothing, or appends exactly one record located at the parsed source, which renders to
the key of the link; and the message of a located record ends with the rendering of its
path. -/
theorem errors_accumulate {V T : Type} [DecidableEq T] (env : Env V T) (loader : Loader V)
    (src target : P) (value : V) (name key : String) :
    ((∃ assigned root, env.set src loader.Values assigned = .ok root ∧
        loader.Add env src value = { loader with Values := root }) ∨
      (∃ cause, loader.Add env src value =
        { loader with errors := loader.errors ++ [Error.located cause src] })) ∧
    ((∃ instance_ root, env.new name = some instance_ ∧
        env.set src loader.Values instance_ = .ok root ∧
        loader.TypeAt env src name = { loader with Values := root }) ∨
      (∃ cause, loader.TypeAt env src name =
        { loader with errors := loader.errors ++ [Error.located cause src] })) ∧
    (loader.Link src target).errors = loader.errors ∧
    ((∃ dst resolved root, resolve loader.links target 0 = .ok dst ∧
        env.get dst loader.Values = .ok resolved ∧ env.isNil resolved = false ∧
        env.set (pathNew key) loader.Values resolved = .ok root ∧
        loader.finishLink env key target = { loader with Values := root }) ∨
      (∃ cause, loader.finishLink env key target =
        { loader with errors := loader.errors ++ [Error.located cause (pathNew key)] })) ∧
    pathString (pathNew key) = key ∧
    (∀ cause : Error, (Error.located cause src).Error =
      cause.Error ++ " at '" ++ pathString src ++ "'") :=
  ⟨Add_cases env loader src value, TypeAt_cases env loader src name, rfl,
    finishLink_cases env loader key target, pathString_pathNew key, fun _ => rfl⟩

/-! ## Link -/

/-- C9: `Link` is last-write-wins and has no other effect: after `Link(s,t1)` then
`Link(s,t2)` the links map holds `t2` for the rendering of `s` and every other key has the
entry it had before; a `Link` call changes neither the root value nor the error sequence. -/
theorem Link_last_write_wins {V : Type} (loader : Loader V) (s t1 t2 : P) :
    ((loader.Link s t1).Link s t2).links.lookup (pathString s) = some t2 ∧
    (∀ k, k ≠ pathString s →
      ((loader.Link s t1).Link s t2).links.lookup k = loader.links.lookup k) ∧
    (loader.Link s t1).Values = loader.Values ∧
    (loader.Link s t1).errors = loader.errors ∧
    ((loader.Link s t1).Link s t2).Values = loader.Values ∧
    ((loader.Link s t1).Link s t2).errors = loader.errors := by
  refine ⟨lookup_mapSet_self _ _ _, fun k hk => ?_, rfl, rfl, rfl, rfl⟩
  show (mapSet (mapSet loader.links (pathString s) t1) (pathString s) t2).lookup k = _
  rw [lookup_mapSet_ne _ _ _ _ hk, lookup_mapSet_ne _ _ _ _ hk]

/-! ## The converter fallback -/

/-- C10: when the direct assignment of `v` at `p` fails with InvalidType and no converter is
registered for the declared type at `p`, `Add(p, v)` records exactly that InvalidType error,
located at `p`, and leaves the root, hence the location at `p`, as it was. -/
theorem Add_without_converter {V T : Type} [DecidableEq T] (env : Env V T) (loader : Loader V)
    (p : P) (v : V) (typ : T)
    (hset : env.set p loader.Values v = .error Error.ErrInvalidType)
    (htyp : env.typ p loader.Values = .ok typ) (hconv : env.converters typ = none) :
    loader.Add env p v =
        { loader with errors := loader.errors ++ [Error.located Error.ErrInvalidType p] } ∧
      (loader.Add env p v).Values = loader.Values ∧
      env.get p (loader.Add env p v).Values = env.get p loader.Values := by
  have hc : convert env typ v = .ok v := by
    unfold convert
    split <;> simp [hconv]
  have h : loader.Add env p v =
      { loader with errors := loader.errors ++ [Error.located Error.ErrInvalidType p] } := by
    simp [Loader.Add, hset, htyp, hc, Loader.ErrorAt]
  exact ⟨h, by rw [h], by rw [h]⟩

/-- A witness of C10: the text `5s` assigned to a field declared as a duration, with no
converter registered. -/
theorem Add_without_converter_witness :
    (Loader.fresh (Value.map [("X", Value.record "Conf"
        [("Timeout", Ty.duration, Value.duration 0)])])).Add bareEnv ["X", "Timeout"]
        (Value.str "5s") =
      { Loader.fresh (Value.map [("X", Value.record "Conf"
          [("Timeout", Ty.duration, Value.duration 0)])]) with
        errors := [] ++ [Error.located Error.ErrInvalidType ["X", "Timeout"]] } :=
  (Add_without_converter bareEnv
    (Loader.fresh (Value.map [("X", Value.record "Conf"
      [("Timeout", Ty.duration, Value.duration 0)])]))
    ["X", "Timeout"] (Value.str "5s") Ty.duration rfl rfl rfl).1

/-! ## Matching of link sources -/

theorem splitDot_append_dot (a rest : List Char) (h : '.' ∉ a) :
    splitDot (a ++ '.' :: rest) = a :: splitDot rest := by
  induction a with
  | nil => simp [splitDot]
  | cons c a ih =>
    have hc : c ≠ '.' := fun h2 => h (by simp [h2])
    have ha : '.' ∉ a := fun h2 => h (List.mem_cons_of_mem _ h2)
    simp [splitDot, hc, ih ha]

theorem pathString_cons_cons_data (s t : String) (rest : P) :
    (pathString (s :: t :: rest)).data = s.data ++ '.' :: (pathString (t :: rest)).data := by
  simp [pathString, String.intercalate, intercalate_go_data]

/-- Parsing undoes rendering on a non-empty path whose segments hold no dot. -/
theorem pathNew_pathString (p : P) (hne : p ≠ []) (hdot : ∀ s ∈ p, '.' ∉ s.data) :
    pathNew (pathString p) = p := by
  induction p with
  | nil => exact absurd rfl hne
  | cons s rest ih =>
    cases rest with
    | nil =>
      rw [pathString_single]
      exact pathNew_single s (hdot s (List.mem_cons_self _ _))
    | cons t rest =>
      have ih2 := ih (by simp) (fun x hx => hdot x (List.mem_cons_of_mem _ hx))
      unfold pathNew at ih2 ⊢
      rw [pathString_cons_cons_data, splitDot_append_dot _ _ (hdot s (List.mem_cons_self _ _)),
        List.map_cons, ih2]

/-- C13, as stated, fails: matching is on renderings. After `Link(["a.b"], ["q"])` the scan of
`resolve` on the target `a.b` of two segments stops at length 2, although that prefix is not
the recorded source of one segment, and `resolve` returns `q`; and `Finish` assigns at the
two segments parsed from the key, where the assignment fails, not at the source passed to
`Link`. -/
theorem matching_is_on_renderings :
    findRedirect ((Loader.fresh (Value.map [("q", Value.str "v")])).Link ["a.b"] ["q"]).links
        ["a", "b"] = some (2, ["q"]) ∧
    resolve ((Loader.fresh (Value.map [("q", Value.str "v")])).Link ["a.b"] ["q"]).links
        ["a", "b"] 0 = .ok ["q"] ∧
    (["a", "b"] : P).take 2 ≠ ["a.b"] ∧
    pathNew (pathString ["a.b"]) = ["a", "b"] ∧
    ((Loader.fresh (Value.map [("q", Value.str "v")])).Link ["a.b"] ["q"]).Finish bareEnv
        [("a.b", ["q"])] = (none, some [Error.located Error.ErrInvalidPath ["a", "b"]]) := by
  refine ⟨by decide, rfl, by decide, by decide, rfl⟩

theorem linkAll_cons {V : Type} (loader : Loader V) (src target : P) (calls : List (P × P)) :
    loader.linkAll ((src, target) :: calls) = (loader.Link src target).linkAll calls := rfl

/-- An entry found in the links map after a sequence of `Link` calls was recorded by one of
the calls, under the rendering of its source, or was there before. -/
theorem lookup_linkAll {V : Type} (calls : List (P × P)) (loader : Loader V) (key : String)
    (R : P) (h : (loader.linkAll calls).links.lookup key = some R) :
    (∃ S, (S, R) ∈ calls ∧ pathString S = key) ∨ loader.links.lookup key = some R := by
  induction calls generalizing loader with
  | nil => exact Or.inr h
  | cons call calls ih =>
    obtain ⟨src, target⟩ := call
    rw [linkAll_cons] at h
    rcases ih (loader.Link src target) h with ⟨S, hS, hk⟩ | hl
    · exact Or.inl ⟨S, List.mem_cons_of_mem _ hS, hk⟩
    · by_cases hkey : key = pathString src
      · subst hkey
        have hl2 : (mapSet loader.links (pathString src) target).lookup (pathString src) =
            some R := hl
        rw [lookup_mapSet_self] at hl2
        have hR : target = R := Option.some.inj hl2
        subst hR
        exact Or.inl ⟨src, List.mem_cons_self _ _, rfl⟩
      · have hl2 : (mapSet loader.links (pathString src) target).lookup key = some R := hl
        rw [lookup_mapSet_ne _ _ _ _ hkey] at hl2
        exact Or.inr hl2

theorem mem_mapSet {β : Type} (m : List (String × β)) (k j : String) (v w : β)
    (h : (j, w) ∈ mapSet m k v) : (j = k ∧ w = v) ∨ (j, w) ∈ m := by
  induction m with
  | nil =>
    simp only [mapSet, List.mem_singleton, Prod.mk.injEq] at h
    exact Or.inl h
  | cons e m ih =>
    obtain ⟨k2, v2⟩ := e
    by_cases hk : k2 = k
    · simp only [mapSet, hk, if_true, List.mem_cons, Prod.mk.injEq] at h
      rcases h with h | h
      · exact Or.inl h
      · exact Or.inr (List.mem_cons_of_mem _ h)
    · simp only [mapSet, hk, if_false, List.mem_cons, Prod.mk.injEq] at h
      rcases h with h | h
      · exact Or.inr (by simp [h.1, h.2])
      · rcases ih h with h2 | h2
        · exact Or.inl h2
        · exact Or.inr (List.mem_cons_of_mem _ h2)

/-- An entry of the links map after a sequence of `Link` calls was recorded by one of the
calls, under the rendering of its source, or was there before. -/
theorem mem_linkAll {V : Type} (calls : List (P × P)) (loader : Loader V) (key : String)
    (R : P) (h : (key, R) ∈ (loader.linkAll calls).links) :
    (∃ S, (S, R) ∈ calls ∧ pathString S = key) ∨ (key, R) ∈ loader.links := by
  induction calls generalizing loader with
  | nil => exact Or.inr h
  | cons call calls ih =>
    obtain ⟨src, target⟩ := call
    rw [linkAll_cons] at h
    rcases ih (loader.Link src target) h with ⟨S, hS, hk⟩ | hl
    · exact Or.inl ⟨S, List.mem_cons_of_mem _ hS, hk⟩
    · rcases mem_mapSet loader.links (pathString src) key target R hl with ⟨h1, h2⟩ | h3
      · subst h1
        subst h2
        exact Or.inl ⟨src, List.mem_cons_self _ _, rfl⟩
      · exact Or.inr h3

/-- A non-empty prefix of a dot-free target that renders like a non-empty dot-free path is
that path. -/
theorem take_eq_of_pathString_eq (S target : P) (k : Nat) (hS : S ≠ [])
    (hSdot : ∀ s ∈ S, '.' ∉ s.data) (hTdot : ∀ s ∈ target, '.' ∉ s.data) (hk : 1 ≤ k)
    (hlen : 1 ≤ target.length) (hkey : pathString S = pathString (target.take k)) :
    target.take k = S := by
  have htake : target.take k ≠ [] := by
    cases target with
    | nil => simp at hlen
    | cons x xs =>
      cases k with
      | zero => omega
      | succ k => simp
  rw [← pathNew_pathString _ htake (fun s hs => hTdot s (List.mem_of_mem_take hs)), ← hkey,
    pathNew_pathString S hS hSdot]

/-- C13 (amended to paths without the delimiter): after any sequence of `Link` calls on a
loader without links, the sources non-empty with no dot in their segments, and for every
target `T` with no dot in its segments: when the scan of `resolve` stops at the prefix
`T[:k]` and redirects to `R`, a link with target `R` was recorded whose source `S` equals
`T[:k]` segment by segment; when no non-empty prefix of `T` equals a recorded source, the
scan finds nothing and `resolve` returns `T`; and the iteration of `Finish` for an entry of
the map assigns the resolved value, or records its error, at exactly the source `S` that was
passed to the `Link` call of that entry. -/
theorem matching_structural_without_dots {V T : Type} (env : Env V T) (loader : Loader V)
    (calls : List (P × P)) (target : P) (d : Nat) (hfresh : loader.links = [])
    (hsrc : ∀ call ∈ calls, call.1 ≠ [] ∧ ∀ s ∈ call.1, '.' ∉ s.data)
    (htgt : ∀ s ∈ target, '.' ∉ s.data) (hd : d ≤ MaxLinksDepth) :
    (∀ k R, findRedirect (loader.linkAll calls).links target = some (k, R) →
      (∃ S, (S, R) ∈ calls ∧ target.take k = S) ∧
      resolve (loader.linkAll calls).links target d =
        resolve (loader.linkAll calls).links (R ++ target.drop k) (d + 1)) ∧
    ((∀ k, 1 ≤ k → k ≤ target.length → ∀ call ∈ calls, target.take k ≠ call.1) →
      findRedirect (loader.linkAll calls).links target = none ∧
      resolve (loader.linkAll calls).links target d = .ok target) ∧
    (∀ (M : Loader V) (key : String) (R : P), (key, R) ∈ (loader.linkAll calls).links →
      ∃ S, (S, R) ∈ calls ∧ key = pathString S ∧ pathNew key = S ∧
        ((∃ dst resolved root, resolve M.links R 0 = .ok dst ∧
            env.get dst M.Values = .ok resolved ∧ env.isNil resolved = false ∧
            env.set S M.Values resolved = .ok root ∧
            M.finishLink env key R = { M with Values := root }) ∨
          (∃ cause, M.finishLink env key R =
            { M with errors := M.errors ++ [Error.located cause S] }))) := by
  have hrecorded : ∀ key R, (loader.linkAll calls).links.lookup key = some R →
      ∃ S, (S, R) ∈ calls ∧ pathString S = key := by
    intro key R h
    rcases lookup_linkAll calls loader key R h with h1 | h2
    · exact h1
    · rw [hfresh] at h2
      simp at h2
  refine ⟨fun k R hscan => ?_, fun hnone => ?_, fun M key R hmem => ?_⟩
  · obtain ⟨hk1, hk2, hl, _⟩ :=
      scanFrom_some_spec (loader.linkAll calls).links target target.length 1 k R hscan
    obtain ⟨S, hS, hkey⟩ := hrecorded _ _ hl
    have heq : target.take k = S :=
      take_eq_of_pathString_eq S target k (hsrc _ hS).1 (hsrc _ hS).2 htgt hk1 (by omega) hkey
    exact ⟨⟨S, hS, heq⟩, resolve_of_findRedirect_some _ target R d k hd hscan⟩
  · have hscan : findRedirect (loader.linkAll calls).links target = none := by
      apply scanFrom_eq_none
      intro j hj1 hj2
      cases hl : (loader.linkAll calls).links.lookup (pathString (target.take j)) with
      | none => rfl
      | some R =>
        obtain ⟨S, hS, hkey⟩ := hrecorded _ _ hl
        have heq : target.take j = S :=
          take_eq_of_pathString_eq S target j (hsrc _ hS).1 (hsrc _ hS).2 htgt hj1 (by omega)
            hkey
        exact absurd heq (hnone j hj1 (by omega) _ hS)
    exact ⟨hscan, resolve_of_findRedirect_none _ target d hd hscan⟩
  · rcases mem_linkAll calls loader key R hmem with ⟨S, hS, hkey⟩ | h2
    · have hround : pathNew key = S := by
        rw [← hkey]
        exact pathNew_pathString S (hsrc _ hS).1 (hsrc _ hS).2
      refine ⟨S, hS, hkey.symm, hround, ?_⟩
      have h := finishLink_cases env M key R
      rw [hround] at h
      exact h
    · rw [hfresh] at h2
      simp at h2

/-- A witness of the amended C13: the link `W` of the repository's test and the target `W.I`,
at which the scan stops with the first segment. -/
theorem matching_structural_without_dots_witness :
    (∃ S, (S, ["X", "Base"]) ∈ [((["W"] : P), (["X", "Base"] : P))] ∧
      (["W", "I"] : P).take 1 = S) ∧
    resolve ((Loader.fresh (Value.map [])).linkAll [(["W"], ["X", "Base"])]).links
        ["W", "I"] 0 =
      resolve ((Loader.fresh (Value.map [])).linkAll [(["W"], ["X", "Base"])]).links
        (["X", "Base"] ++ (["W", "I"] : P).drop 1) (0 + 1) :=
  (matching_structural_without_dots bareEnv (Loader.fresh (Value.map []))
    [(["W"], ["X", "Base"])] ["W", "I"] 0 rfl (by decide) (by decide) (by decide)).1
      1 ["X", "Base"] (by decide)

/-! ## The order of the links in `Finish` -/

/-- C12 fails on the code: with the links `X` to `C` and `X.S` to `D` on a root where `C`
holds a record and `D` a text, `Finish` visiting `X` first assigns the record at `X` and then
the text at `X.S`, and returns a nil error; visiting `X.S` first, the assignment fails, `X`
not being there yet, and `Finish` returns no value and the error. Both are orders in which
`range loader.links` may hand out the two entries. Only the errors are compared, which do
not depend on whether the record is shared or copied. -/
theorem Finish_depends_on_order :
    (Loader.Finish bareEnv
      { Values := Value.map [("C", Value.record "Impl" [("S", Ty.string, Value.str "c")]),
          ("D", Value.str "d")],
        links := [("X", ["C"]), ("X.S", ["D"])], errors := [] }
      [("X", ["C"]), ("X.S", ["D"])]).2 = none ∧
    (Loader.Finish bareEnv
      { Values := Value.map [("C", Value.record "Impl" [("S", Ty.string, Value.str "c")]),
          ("D", Value.str "d")],
        links := [("X", ["C"]), ("X.S", ["D"])], errors := [] }
      [("X", ["C"]), ("X.S", ["D"])]).1.isSome = true ∧
    Loader.Finish bareEnv
      { Values := Value.map [("C", Value.record "Impl" [("S", Ty.string, Value.str "c")]),
          ("D", Value.str "d")],
        links := [("X", ["C"]), ("X.S", ["D"])], errors := [] }
      [("X.S", ["D"]), ("X", ["C"])] =
        (none, some [Error.located Error.ErrInvalidPath ["X", "S"]]) := by
  exact ⟨rfl, rfl, rfl⟩

/-! ## Link declarations in JSON -/

/-- Reading the numeral of `n` back, digit by digit, gives `n`. -/
theorem toDigitsCore_value (n : Nat) : ∀ (fuel : Nat) (ds : List Char), n < fuel →
    (Nat.toDigitsCore 10 fuel n ds).foldl (fun acc c => acc * 10 + (c.toNat - 48)) 0 =
      ds.foldl (fun acc c => acc * 10 + (c.toNat - 48)) n := by
  induction n using Nat.strong_induction_on with
  | _ n ih =>
    intro fuel ds hfuel
    cases fuel with
    | zero => omega
    | succ fuel =>
      have hdigit : ∀ m, m < 10 → (Nat.digitChar m).toNat - 48 = m := by decide
      have hd := hdigit (n % 10) (Nat.mod_lt _ (by decide))
      unfold Nat.toDigitsCore
      by_cases h0 : n / 10 = 0
      · have hn : n % 10 = n := by omega
        simp only [h0, if_true, List.foldl_cons, hd, Nat.zero_mul, Nat.zero_add]
        rw [hn]
      · simp only [h0, if_false]
        rw [ih (n / 10) (by omega) fuel _ (by omega), List.foldl_cons, hd]
        have hn : n / 10 * 10 + n % 10 = n := by omega
        rw [hn]

/-- The decimal numerals of two different numbers are different. -/
theorem toString_nat_injective (i j : Nat) (h : toString i = toString j) : i = j := by
  have h2 : Nat.toDigits 10 i = Nat.toDigits 10 j := by
    have := congrArg String.data h
    simpa [toString, Nat.repr, List.asString] using this
  have hi := toDigitsCore_value i (i + 1) [] (by omega)
  have hj := toDigitsCore_value j (j + 1) [] (by omega)
  unfold Nat.toDigits at h2
  rw [h2] at hi
  simpa using hi.symm.trans hj

theorem pathString_append_single_data (c : P) (x : String) :
    (pathString (c ++ [x])).data =
      if c = [] then x.data else (pathString c).data ++ '.' :: x.data := by
  induction c with
  | nil => simp [pathString_single]
  | cons s rest ih =>
    cases rest with
    | nil => simp [pathString_cons_cons_data, pathString_single]
    | cons t rest =>
      have h := ih
      simp only [List.cons_append] at h ⊢
      rw [pathString_cons_cons_data, pathString_cons_cons_data, h]
      simp

/-- Under one and the same path, two different last segments render differently. -/
theorem pathString_append_single_injective (c : P) (x y : String)
    (h : pathString (c ++ [x]) = pathString (c ++ [y])) : x = y := by
  have h2 := congrArg String.data h
  rw [pathString_append_single_data, pathString_append_single_data] at h2
  by_cases hc : c = []
  · simp only [hc, if_true] at h2
    exact String.ext h2
  · simp only [hc, if_false] at h2
    have h3 := List.append_cancel_left h2
    exact String.ext (List.cons.inj h3).2

/-- On an array of strings the loop of `loadLinks` is one `Link` call per index. -/
theorem loadLinksRange_strings {V : Type} (strs : List String) (loader : Loader V) (c : P)
    (i : Nat) :
    loadLinksRange loader c i (strs.map JSON.string) =
      (strs.enumFrom i).foldl
        (fun acc e => acc.Link (c ++ [toString e.1]) (pathNew e.2)) loader := by
  induction strs generalizing loader i with
  | nil => simp [loadLinksRange]
  | cons s rest ih =>
    simp only [List.map_cons, loadLinksRange, loadLinks, List.enumFrom_cons, List.foldl_cons]
    exact ih _ _

theorem linkFold_frame {V : Type} (strs : List String) (loader : Loader V) (c : P) (i : Nat) :
    ((strs.enumFrom i).foldl
        (fun acc e => acc.Link (c ++ [toString e.1]) (pathNew e.2)) loader).errors =
      loader.errors ∧
    ((strs.enumFrom i).foldl
        (fun acc e => acc.Link (c ++ [toString e.1]) (pathNew e.2)) loader).Values =
      loader.Values := by
  induction strs generalizing loader i with
  | nil => exact ⟨rfl, rfl⟩
  | cons s rest ih =>
    simp only [List.enumFrom_cons, List.foldl_cons]
    exact ih _ _

theorem linkFold_lookup_other {V : Type} (strs : List String) (loader : Loader V) (c : P)
    (i : Nat) (key : String)
    (hkey : ∀ j, i ≤ j → j < i + strs.length → key ≠ pathString (c ++ [toString j])) :
    ((strs.enumFrom i).foldl
        (fun acc e => acc.Link (c ++ [toString e.1]) (pathNew e.2)) loader).links.lookup key =
      loader.links.lookup key := by
  induction strs generalizing loader i with
  | nil => rfl
  | cons s rest ih =>
    simp only [List.enumFrom_cons, List.foldl_cons]
    rw [ih _ (i + 1) (fun j h1 h2 => hkey j (by omega) (by simp; omega))]
    exact lookup_mapSet_ne _ _ _ _ (hkey i (Nat.le_refl i) (by simp))

theorem linkFold_lookup {V : Type} (strs : List String) (loader : Loader V) (c : P)
    (i j : Nat) (s : String) (hs : strs[j]? = some s) :
    ((strs.enumFrom i).foldl
        (fun acc e => acc.Link (c ++ [toString e.1]) (pathNew e.2)) loader).links.lookup
          (pathString (c ++ [toString (i + j)])) = some (pathNew s) := by
  induction strs generalizing loader i j with
  | nil => simp at hs
  | cons s0 rest ih =>
    simp only [List.enumFrom_cons, List.foldl_cons]
    cases j with
    | zero =>
      simp only [List.getElem?_cons_zero, Option.some.injEq] at hs
      subst hs
      rw [linkFold_lookup_other rest _ c (i + 1) _ (fun j h1 _ h => by
        have := toString_nat_injective _ _ (pathString_append_single_injective c _ _ h)
        omega)]
      exact lookup_mapSet_self _ _ _
    | succ j =>
      simp only [List.getElem?_cons_succ] at hs
      have h := ih (loader.Link (c ++ [toString i]) (pathNew s0)) (i + 1) j hs
      have hidx : i + 1 + j = i + (j + 1) := by omega
      rw [hidx] at h
      exact h

/-- C14: for every current path `c`, `loadLinks` on a string `s` is `Link(c, parse(s))`; on an
array of `n` strings it is `n` `Link` calls, the `i`-th from `c ++ [decimal i]` to
`parse(si)`, which leave `n` different keys in the links map, each with its target, the
other keys, the root and the errors as they were; on a number, a boolean, `null` or an
object it records no link and appends exactly one error, located at `c`. -/
theorem loadLinks_records {V : Type} (loader : Loader V) (c : P) :
    (∀ s, loadLinks loader c (JSON.string s) = loader.Link c (pathNew s)) ∧
    (∀ strs : List String,
      loadLinks loader c (JSON.array (strs.map JSON.string)) =
        strs.enum.foldl
          (fun acc (e : Nat × String) => acc.Link (c ++ [toString e.1]) (pathNew e.2)) loader ∧
      (loadLinks loader c (JSON.array (strs.map JSON.string))).errors = loader.errors ∧
      (loadLinks loader c (JSON.array (strs.map JSON.string))).Values = loader.Values ∧
      (∀ (i : Nat) (s : String), strs[i]? = some s →
        (loadLinks loader c (JSON.array (strs.map JSON.string))).links.lookup
          (pathString (c ++ [toString i])) = some (pathNew s)) ∧
      (∀ i j : Nat, pathString (c ++ [toString i]) = pathString (c ++ [toString j]) → i = j) ∧
      (∀ key, (∀ i : Nat, i < strs.length → key ≠ pathString (c ++ [toString i])) →
        (loadLinks loader c (JSON.array (strs.map JSON.string))).links.lookup key =
          loader.links.lookup key)) ∧
    (∀ v, (v = JSON.null ∨ (∃ b, v = JSON.bool b) ∨ (∃ x, v = JSON.number x) ∨
        (∃ m, v = JSON.object m)) →
      loadLinks loader c v =
        { loader with
          errors := loader.errors ++
            [Error.located (Error.other ("unknown object type '" ++ v.goType ++ "' for links"))
              c] }) := by
  refine ⟨fun s => by simp [loadLinks], fun strs => ?_, ?_⟩
  · have heq : loadLinks loader c (JSON.array (strs.map JSON.string)) =
        strs.enum.foldl
          (fun acc (e : Nat × String) => acc.Link (c ++ [toString e.1]) (pathNew e.2)) loader := by
      simp only [loadLinks, List.enum]
      exact loadLinksRange_strings strs loader c 0
    rw [heq]
    refine ⟨rfl, (linkFold_frame strs loader c 0).1, (linkFold_frame strs loader c 0).2,
      fun i s hs => ?_,
      fun i j h => toString_nat_injective _ _ (pathString_append_single_injective c _ _ h),
      fun key hkey => ?_⟩
    · have h := linkFold_lookup strs loader c 0 i s hs
      rw [Nat.zero_add] at h
      exact h
    · exact linkFold_lookup_other strs loader c 0 key
        (fun j _ h2 => hkey j (by omega))
  · intro v hv
    rcases hv with rfl | ⟨b, rfl⟩ | ⟨x, rfl⟩ | ⟨m, rfl⟩ <;>
      simp [loadLinks, Loader.ErrorAt]

/-! ## Registering two types that share a bare name -/

/-- C11, as stated, fails, in three ways. On an empty registry, a type `p/int` followed by the
type `int` of empty package path: the short alias `int` taken by the first makes the second
call end with the duplicate-registration fatal entry. On a registry that already holds
`p/T`, registering `p/T` and then `q/T` ends at the first call. On a registry that already
holds `r/T`, and so the alias `T`, registering `p/T` and `q/T` succeeds and the bare name `T`
still maps to `r/T`, not to the first of the two. -/
theorem Register_shared_name_fails :
    ((Registry.mk []).Register (some (RType.plain "p" "int" Kind.struct))).bind
        (fun reg => reg.Register (some (RType.plain "" "int" Kind.int))) =
      .error (Abort.fatal "duplicate registration attempt for 'int'") ∧
    ((Registry.mk []).Register (some (RType.plain "p" "T" Kind.struct))).bind
        (fun held => (held.Register (some (RType.plain "p" "T" Kind.struct))).bind
          (fun reg => reg.Register (some (RType.plain "q" "T" Kind.struct)))) =
      .error (Abort.fatal "duplicate registration attempt for 'p/T'") ∧
    (((Registry.mk []).Register (some (RType.plain "r" "T" Kind.struct))).bind
        (fun held => (held.Register (some (RType.plain "p" "T" Kind.struct))).bind
          (fun reg => reg.Register (some (RType.plain "q" "T" Kind.struct))))).map
            (fun reg => (reg.Get "p/T", reg.Get "q/T", reg.Get "T")) =
      .ok (some (RType.plain "p" "T" Kind.struct), some (RType.plain "q" "T" Kind.struct),
        some (RType.plain "r" "T" Kind.struct)) := by
  exact ⟨rfl, rfl, rfl⟩

theorem qualifiedName_ne_name (typ : RType) (h : typ.PkgPath ≠ "") :
    qualifiedName typ ≠ typ.Name := by
  intro heq
  have hlen := congrArg String.length heq
  simp only [qualifiedName, h, ne_eq, not_false_eq_true, if_true, String.length_append] at hlen
  have : ("/" : String).length = 1 := rfl
  omega

/-- Registering a type whose qualified name is not held yet: the registry after the call holds
the type under its qualified name, and under its bare name unless that was taken. -/
theorem Register_new (reg : Registry) (value typ : RType) (hstrip : stripRefs value = .ok typ)
    (hnew : reg.Get (qualifiedName typ) = none) :
    ∃ reg2, reg.Register (some value) = .ok reg2 ∧
      reg2.Get (qualifiedName typ) = some typ ∧
      reg2.Get typ.Name = (match reg.Get typ.Name with
        | some held => some held
        | none => some typ) ∧
      ∀ k, k ≠ qualifiedName typ → k ≠ typ.Name → reg2.Get k = reg.Get k := by
  unfold Registry.Get at hnew
  by_cases hq : qualifiedName typ = typ.Name
  · refine ⟨{ types := mapSet reg.types (qualifiedName typ) typ }, ?_, ?_, ?_, ?_⟩
    · have h2 : ((mapSet reg.types (qualifiedName typ) typ).lookup typ.Name).isSome = true := by
        rw [← hq, lookup_mapSet_self]
        rfl
      simp [Registry.Register, hstrip, hnew, h2]
    · exact lookup_mapSet_self _ _ _
    · simp only [Registry.Get]
      rw [← hq, lookup_mapSet_self, hnew]
    · intro k hk _
      exact lookup_mapSet_ne _ _ _ _ hk
  · have hne : typ.Name ≠ qualifiedName typ := fun h => hq h.symm
    cases hb : reg.types.lookup typ.Name with
    | some held =>
      refine ⟨{ types := mapSet reg.types (qualifiedName typ) typ }, ?_, ?_, ?_, ?_⟩
      · have h2 : ((mapSet reg.types (qualifiedName typ) typ).lookup typ.Name).isSome = true := by
          rw [lookup_mapSet_ne _ _ _ _ hne, hb]
          rfl
        simp [Registry.Register, hstrip, hnew, h2]
      · exact lookup_mapSet_self _ _ _
      · simp only [Registry.Get]
        rw [lookup_mapSet_ne _ _ _ _ hne, hb]
      · intro k hk _
        exact lookup_mapSet_ne _ _ _ _ hk
    | none =>
      refine ⟨{ types := mapSet (mapSet reg.types (qualifiedName typ) typ) typ.Name typ },
        ?_, ?_, ?_, ?_⟩
      · have h2 : ((mapSet reg.types (qualifiedName typ) typ).lookup typ.Name).isSome = false := by
          rw [lookup_mapSet_ne _ _ _ _ hne, hb]
          rfl
        simp [Registry.Register, hstrip, hnew, h2]
      · simp only [Registry.Get]
        rw [lookup_mapSet_ne _ _ _ _ hq, lookup_mapSet_self]
      · simp only [Registry.Get]
        rw [lookup_mapSet_self, hb]
      · intro k hk hk2
        simp only [Registry.Get]
        rw [lookup_mapSet_ne _ _ _ _ hk2, lookup_mapSet_ne _ _ _ _ hk]

/-- C11 (amended to names that are free and a second type with a package path): for every
registry state that holds neither of the two qualified names nor the bare name, and every
two types with distinct qualified names that share one bare name, the second with a
non-empty package path, registering both in sequence succeeds without aborting, each
qualified name then maps to its own type, and the bare name maps to the first registered
type. -/
theorem Register_shared_name (reg : Registry) (v1 v2 t1 t2 : RType)
    (hv1 : stripRefs v1 = .ok t1) (hv2 : stripRefs v2 = .ok t2)
    (hq : qualifiedName t1 ≠ qualifiedName t2) (hbare : t1.Name = t2.Name)
    (hpkg : t2.PkgPath ≠ "") (h1 : reg.Get (qualifiedName t1) = none)
    (h2 : reg.Get (qualifiedName t2) = none) (h3 : reg.Get t1.Name = none) :
    ∃ reg1 reg2, reg.Register (some v1) = .ok reg1 ∧ reg1.Register (some v2) = .ok reg2 ∧
      reg2.Get (qualifiedName t1) = some t1 ∧ reg2.Get (qualifiedName t2) = some t2 ∧
      reg2.Get t1.Name = some t1 := by
  have hq2 : qualifiedName t2 ≠ t2.Name := qualifiedName_ne_name t2 hpkg
  obtain ⟨reg1, hr1, hg1, hb1, ho1⟩ := Register_new reg v1 t1 hv1 h1
  rw [h3] at hb1
  have hnew2 : reg1.Get (qualifiedName t2) = none := by
    rw [ho1 _ (fun h => hq h.symm) (by rw [hbare]; exact hq2)]
    exact h2
  obtain ⟨reg2, hr2, hg2, hb2, ho2⟩ := Register_new reg1 v2 t2 hv2 hnew2
  rw [← hbare, hb1] at hb2
  refine ⟨reg1, reg2, hr1, hr2, ?_, hg2, hb2⟩
  by_cases hsame : qualifiedName t1 = t1.Name
  · rw [hsame]
    exact hb2
  · rw [ho2 _ hq (by rw [← hbare]; exact hsame)]
    exact hg1

/-- A witness of the amended C11: the types `a/T` and `b/T` on an empty registry. -/
theorem Register_shared_name_witness :
    ∃ reg1 reg2,
      (Registry.mk []).Register (some (RType.plain "a" "T" Kind.struct)) = .ok reg1 ∧
      reg1.Register (some (RType.plain "b" "T" Kind.struct)) = .ok reg2 ∧
      reg2.Get (qualifiedName (RType.plain "a" "T" Kind.struct)) =
        some (RType.plain "a" "T" Kind.struct) ∧
      reg2.Get (qualifiedName (RType.plain "b" "T" Kind.struct)) =
        some (RType.plain "b" "T" Kind.struct) ∧
      reg2.Get (RType.plain "a" "T" Kind.struct).Name = some (RType.plain "a" "T" Kind.struct) :=
  Register_shared_name (Registry.mk []) (RType.plain "a" "T" Kind.struct)
    (RType.plain "b" "T" Kind.struct) (RType.plain "a" "T" Kind.struct)
    (RType.plain "b" "T" Kind.struct) rfl rfl (by decide) rfl (by decide) rfl rfl rfl

/-! ## The store: a field of an unhandled kind -/

/-- C15 fails on the code: for the registered struct type `T` with the fields `N int` and
`Text string`, and the data `{"Type": "T", "Text": "x"}`, `readFields` and `Create` return a
nil error, with `N` left at zero: the error that the `int` field assigns to `err` is
replaced by the nil result of the reader of the next field. With the two fields in the other
order the error is returned: the outcome depends on the position of the field. -/
theorem unhandled_field_error_is_lost (fuel : Nat) :
    readFields
        [("T", RType.mk "store" "T" Kind.struct none
          [("N", false, RType.plain "" "int" Kind.int),
            ("Text", false, RType.plain "" "string" Kind.string)])]
        (fuel + 1)
        (RType.mk "store" "T" Kind.struct none
          [("N", false, RType.plain "" "int" Kind.int),
            ("Text", false, RType.plain "" "string" Kind.string)])
        [("Type", JSON.string "T"), ("Text", JSON.string "x")] =
      some (.ok [("N", SValue.zero), ("Text", SValue.str "x")]) ∧
    Create
        [("T", RType.mk "store" "T" Kind.struct none
          [("N", false, RType.plain "" "int" Kind.int),
            ("Text", false, RType.plain "" "string" Kind.string)])]
        (fuel + 2)
        (JSON.object [("Type", JSON.string "T"), ("Text", JSON.string "x")]) =
      some (.ok (SValue.ptr (SValue.struct "T"
        [("N", SValue.zero), ("Text", SValue.str "x")]))) ∧
    Create
        [("T", RType.mk "store" "T" Kind.struct none
          [("Text", false, RType.plain "" "string" Kind.string),
            ("N", false, RType.plain "" "int" Kind.int)])]
        (fuel + 2)
        (JSON.object [("Type", JSON.string "T"), ("Text", JSON.string "x")]) =
      some (.error (StoreErr.err "unhandled kind of field 'int'")) := by
  refine ⟨rfl, rfl, rfl⟩

end Blueprint
